import Mathlib

/-!
Verification development for the DJGPP i386 GDB remote stub
(`gdbstub/i386-stub.c`).  The definitions below are a shallow embedding of
the C source: C `int` values are modelled as `Nat` reduced mod `2^32` where
the source can overflow, byte memory is a function `Nat → Nat` holding
values `< 256`, and the stub's mutable globals (`mem_err`,
`mem_fault_routine`) are threaded explicitly as state.  A fault oracle
`fault : Nat → Bool` tells which target addresses raise SIGSEGV when
touched inside the armed window.
-/

namespace GdbStub

/-- The NUL character, used as the C string terminator. -/
def nul : Char := Char.ofNat 0

/-- `static char hexchars[] = "0123456789abcdef";` -/
def hexchars : List Char :=
  ['0', '1', '2', '3', '4', '5', '6', '7'] ++
    ['8', '9', 'a', 'b', 'c', 'd', 'e', 'f']

/-- `#define BUFMAX 400` -/
def BUFMAX : Nat := 400

/-- `#define NUMREGS 16` -/
def NUMREGS : Nat := 16

/-- `#define NUMREGBYTES (NUMREGS * 4)` -/
def NUMREGBYTES : Nat := 64

/-- `static int hex(char ch)`: hex digit to value, `-1` on non-hex. -/
def hex (ch : Char) : Int :=
  if 'a' ≤ ch ∧ ch ≤ 'f' then (ch.toNat : Int) - ('a'.toNat : Int) + 10
  else if '0' ≤ ch ∧ ch ≤ '9' then (ch.toNat : Int) - ('0'.toNat : Int)
  else if 'A' ≤ ch ∧ ch ≤ 'F' then (ch.toNat : Int) - ('A'.toNat : Int) + 10
  else -1

/--
Two hex characters combined into one `unsigned char`, as done both by
`hex2mem` (`ch = hex(*buf++) << 4; ch = ch + hex(*buf++);`) and by
`getpacket` for `xmitcsum`.  The intermediate values are truncated to
`unsigned char`, so a non-hex character (where `hex` yields `-1`)
wraps mod 256 exactly as in C.
-/
def hexPairByte (c1 c2 : Char) : Nat :=
  (((hex c1 * 16).emod 256 + hex c2).emod 256).toNat

/--
`static int computeSignal(int exceptionVector)`: translate a CPU
exception vector to a GDB signal number (the `switch` of the source,
with `case 302:` falling through to `case 3:`).
-/
def computeSignal (v : Int) : Int :=
  if v = 0 then 8
  else if v = 1 then 5
  else if v = 302 then 5
  else if v = 3 then 5
  else if v = 4 then 16
  else if v = 5 then 16
  else if v = 6 then 4
  else if v = 7 then 8
  else if v = 8 then 7
  else if v = 9 then 11
  else if v = 10 then 11
  else if v = 11 then 11
  else if v = 12 then 11
  else if v = 13 then 11
  else if v = 14 then 11
  else if v = 16 then 7
  else 7

/--
`static int hexToInt(char **ptr, int *intValue)`: consume leading hex
digits, accumulating `*intValue = (*intValue << 4) | hexValue` in a
32-bit `int` (modelled as `Nat` mod `2^32`).  Returns
`(numChars, intValue, rest)` where `rest` is the advanced cursor.
-/
def hexToIntAux : List Char → Nat → Nat → Nat × Nat × List Char
  | [], n, v => (n, v, [])
  | c :: rest, n, v =>
    if 0 ≤ hex c then
      hexToIntAux rest (n + 1) ((v <<< 4 ||| (hex c).toNat) % 2 ^ 32)
    else (n, v, c :: rest)

/-- See `hexToIntAux`; the source starts with `*intValue = 0`. -/
def hexToInt (ptr : List Char) : Nat × Nat × List Char :=
  hexToIntAux ptr 0 0

/--
The stub's fault-recovery globals: `mem_err` and `mem_fault_routine`.
`armed = true` models `mem_fault_routine == set_mem_err` (the only value
ever stored); `armed = false` models `mem_fault_routine == NULL`.
-/
structure MState where
  memErr : Bool
  armed : Bool
deriving DecidableEq

/--
`for (i = 0; i < count; i++)` with `int count`: a parsed length whose
32-bit value has the sign bit set is negative in C, so the loop body
runs zero times.
-/
def intIter (n : Nat) : Nat := if n < 2 ^ 31 then n else 0

/--
The loop of `mem2hex`.  Each iteration performs `ch = get_char(mem++)`:
if the armed window is open and the address faults, the SIGSEGV handler
runs `set_mem_err` and clears `mem_fault_routine` (state becomes
`⟨true, false⟩`) before control returns; then
`if (may_fault && mem_err) return (buf);` aborts (third component
`true` = early return, with no NUL terminator written); otherwise two
hex characters of the byte are appended.
-/
def mem2hexGo (mem : Nat → Nat) (fault : Nat → Bool) (mayFault : Bool) :
    Nat → Nat → MState → List Char × MState × Bool
  | _, 0, s => ([], s, false)
  | addr, n + 1, s =>
    let s1 : MState := if s.armed && fault addr then ⟨true, false⟩ else s
    if mayFault && s1.memErr then ([], s1, true)
    else
      let ch := mem addr % 256
      let r := mem2hexGo mem fault mayFault (addr + 1) n s1
      (hexchars.getD (ch >>> 4) ' ' :: hexchars.getD (ch % 16) ' ' :: r.1,
        r.2.1, r.2.2)

/--
`static char *mem2hex(char *mem, char *buf, int count, int may_fault)`.
Arms `mem_fault_routine` on entry when `may_fault`, runs the loop, and
on normal loop exit writes the NUL terminator (third component `true`)
and disarms.  An early (faulting) return skips both.
-/
def mem2hex (mem : Nat → Nat) (fault : Nat → Bool) (addr count : Nat)
    (mayFault : Bool) (s : MState) : List Char × MState × Bool :=
  let s0 : MState := if mayFault then ⟨s.memErr, true⟩ else s
  let r := mem2hexGo mem fault mayFault addr (intIter count) s0
  if r.2.2 then (r.1, r.2.1, false)
  else (r.1, (if mayFault then ⟨r.2.1.memErr, false⟩ else r.2.1), true)

/--
The loop of `hex2mem`.  Each iteration reads two hex characters
(`ch = hex(*buf++) << 4; ch = ch + hex(*buf++);`), performs
`set_char(mem++, ch)` — which faults instead of writing when the armed
window is open and the address faults — and then checks
`if (may_fault && mem_err) return (mem);`.
-/
def hex2memGo (fault : Nat → Bool) (mayFault : Bool) :
    List Char → Nat → Nat → (Nat → Nat) → MState → (Nat → Nat) × MState × Bool
  | _, _, 0, mem, s => (mem, s, false)
  | buf, addr, n + 1, mem, s =>
    let ch := hexPairByte (buf.getD 0 nul) (buf.getD 1 nul)
    let fa := s.armed && fault addr
    let mem1 : Nat → Nat := if fa then mem else fun a => if a = addr then ch else mem a
    let s1 : MState := if fa then ⟨true, false⟩ else s
    if mayFault && s1.memErr then (mem1, s1, true)
    else hex2memGo fault mayFault (buf.drop 2) (addr + 1) n mem1 s1

/--
`static char *hex2mem(char *buf, char *mem, int count, int may_fault)`.
Arms the fault window on entry when `may_fault` and disarms on normal
loop exit; an early (faulting) return leaves the state as the SIGSEGV
handler left it.
-/
def hex2mem (buf : List Char) (fault : Nat → Bool) (mem : Nat → Nat)
    (addr count : Nat) (mayFault : Bool) (s : MState) :
    (Nat → Nat) × MState × Bool :=
  let s0 : MState := if mayFault then ⟨s.memErr, true⟩ else s
  let r := hex2memGo fault mayFault buf addr (intIter count) mem s0
  if r.2.2 then (r.1, r.2.1, false)
  else (r.1, (if mayFault then ⟨r.2.1.memErr, false⟩ else r.2.1), true)

/-- `enum regnames { EAX, ECX, EDX, EBX, ESP, EBP, ESI, EDI, PC, PS, ... }`:
the index of `PC` (eip) in `registers`. -/
def PC : Fin 16 := ⟨8, by omega⟩

/-- The index of `PS` (eflags) in `registers`. -/
def PS : Fin 16 := ⟨9, by omega⟩

/--
Byte `j` of the `registers` array viewed as `char *` (little-endian
32-bit words, as on i386).  Only `j < 64` is ever dereferenced; the
index is reduced mod 16 to make the view total.
-/
def regByte (regs : Fin 16 → Nat) (j : Nat) : Nat :=
  (regs ⟨j / 4 % 16, Nat.mod_lt _ (by omega)⟩ >>> (8 * (j % 4))) % 256

/-- Reassemble the 16 32-bit registers from the byte view after a
`hex2mem` write into `(char *) registers`. -/
def packRegs (f : Nat → Nat) : Fin 16 → Nat := fun i =>
  f (4 * i.val) + 256 * f (4 * i.val + 1) + 65536 * f (4 * i.val + 2) +
    16777216 * f (4 * i.val + 3)

/--
The `case 's':` / `case 'c':` tail of `handle_exception` (the `'s'`
case sets `stepping = 1` and falls through): an optional hex argument
overwrites `registers[PC]`; then `registers[PS] &= 0xfffffeff` clears
the trace bit and, when stepping, `registers[PS] |= 0x100` sets it.
-/
def csStep (stepping : Bool) (ptr : List Char) (regs : Fin 16 → Nat) :
    Fin 16 → Nat :=
  let r := hexToInt ptr
  let regs1 := if r.1 ≠ 0 then Function.update regs PC r.2.1 else regs
  let regs2 := Function.update regs1 PS (regs1 PS &&& 0xfffffeff)
  if stepping then Function.update regs2 PS (regs2 PS ||| 0x100) else regs2

/--
The stub state visible to one iteration of the command loop: the
register snapshot, target memory, the fault-recovery globals and the
`remote_debug` flag.
-/
structure Stub where
  regs : Fin 16 → Nat
  mem : Nat → Nat
  memErr : Bool
  armed : Bool
  remoteDebug : Bool

/--
Outcome of processing one command: either a reply is placed in
`remcomOutBuffer` and the loop continues, or (`c`/`s`) the stub calls
`_returnFromException()` and never comes back.
-/
inductive CmdResult where
  | reply (out : List Char) (s : Stub)
  | resume (s : Stub)

/-- The `case 'g':` branch: `mem2hex((char *)registers, remcomOutBuffer,
NUMREGBYTES, 0)`. -/
def cmdG (fault : Nat → Bool) (s : Stub) : CmdResult :=
  let r := mem2hex (regByte s.regs) fault 0 NUMREGBYTES false ⟨s.memErr, s.armed⟩
  .reply r.1 { s with memErr := r.2.1.memErr, armed := r.2.1.armed }

/-- The `case 'G':` branch: `hex2mem(ptr, (char *)registers, NUMREGBYTES, 0)`
followed by the reply `"OK"`. -/
def cmdGSet (fault : Nat → Bool) (rest : List Char) (s : Stub) : CmdResult :=
  let r := hex2mem rest fault (regByte s.regs) 0 NUMREGBYTES false ⟨s.memErr, s.armed⟩
  .reply ['O', 'K']
    { s with regs := packRegs r.1, memErr := r.2.1.memErr, armed := r.2.1.armed }

/--
The `case 'P':` branch: parse `n=` with `hexToInt` then
`*ptr++ == '='`; when `0 <= regno < NUMREGS`,
`hex2mem(ptr, (char *)&registers[regno], 4, 0)` and reply `"OK"`,
otherwise reply `"E01"`.  (`regno >= 0 && regno < NUMREGS` on a 32-bit
`int` holds exactly when the mod-`2^32` value is `< 16`.)
-/
def cmdP (fault : Nat → Bool) (rest : List Char) (s : Stub) : CmdResult :=
  let r := hexToInt rest
  if r.1 ≠ 0 ∧ r.2.2.headD nul = '=' then
    if r.2.1 < NUMREGS then
      let w := hex2mem (r.2.2.drop 1) fault (regByte s.regs) (4 * r.2.1) 4 false
        ⟨s.memErr, s.armed⟩
      .reply ['O', 'K']
        { s with regs := packRegs w.1, memErr := w.2.1.memErr, armed := w.2.1.armed }
    else .reply ['E', '0', '1'] s
  else .reply ['E', '0', '1'] s

/--
The `case 'm':` branch: parse `addr,length`; on success set
`mem_err = 0` and run `mem2hex((char *)addr, remcomOutBuffer, length, 1)`,
replying `"E03"` if `mem_err` was raised and the hex dump otherwise;
any parse failure leaves `ptr` non-null and replies `"E01"`.
-/
def cmdM (fault : Nat → Bool) (rest : List Char) (s : Stub) : CmdResult :=
  let r1 := hexToInt rest
  if r1.1 ≠ 0 then
    if r1.2.2.headD nul = ',' then
      let r2 := hexToInt (r1.2.2.drop 1)
      if r2.1 ≠ 0 then
        let r := mem2hex s.mem fault r1.2.1 r2.2.1 true ⟨false, s.armed⟩
        if r.2.1.memErr then
          .reply ['E', '0', '3'] { s with memErr := r.2.1.memErr, armed := r.2.1.armed }
        else .reply r.1 { s with memErr := r.2.1.memErr, armed := r.2.1.armed }
      else .reply ['E', '0', '1'] s
    else .reply ['E', '0', '1'] s
  else .reply ['E', '0', '1'] s

/--
The `case 'M':` branch: parse `addr,length:`; on success set
`mem_err = 0` and run `hex2mem(ptr, (char *)addr, length, 1)`, replying
`"E03"` on a memory fault and `"OK"` otherwise; any parse failure
leaves `ptr` non-null and replies `"E02"`.
-/
def cmdMSet (fault : Nat → Bool) (rest : List Char) (s : Stub) : CmdResult :=
  let r1 := hexToInt rest
  if r1.1 ≠ 0 then
    if r1.2.2.headD nul = ',' then
      let r2 := hexToInt (r1.2.2.drop 1)
      if r2.1 ≠ 0 then
        if r2.2.2.headD nul = ':' then
          let r := hex2mem (r2.2.2.drop 1) fault s.mem r1.2.1 r2.2.1 true
            ⟨false, s.armed⟩
          if r.2.1.memErr then
            .reply ['E', '0', '3']
              { s with mem := r.1, memErr := r.2.1.memErr, armed := r.2.1.armed }
          else
            .reply ['O', 'K']
              { s with mem := r.1, memErr := r.2.1.memErr, armed := r.2.1.armed }
        else .reply ['E', '0', '2'] s
      else .reply ['E', '0', '2'] s
    else .reply ['E', '0', '2'] s
  else .reply ['E', '0', '2'] s

/--
One iteration of the `while (1 == 1)` command loop of
`handle_exception`, from `char cmd = *ptr++` through the `switch`.
`sigval` is the signal computed on entry (used by `'?'`).  Branches
that leave `remcomOutBuffer` untouched reply the empty string (the
loop sets `remcomOutBuffer[0] = 0` before fetching the packet).
-/
def processCommand (fault : Nat → Bool) (sigval : Nat) (payload : List Char)
    (s : Stub) : CmdResult :=
  match payload with
  | [] => .reply [] s
  | cmd :: rest =>
    if cmd = '?' then
      .reply ['S', hexchars.getD (sigval >>> 4) ' ', hexchars.getD (sigval % 16) ' '] s
    else if cmd = 'H' then .reply ['O', 'K'] s
    else if cmd = 'q' then
      if rest = ['C'] then .reply ['Q', 'C', '0'] s
      else if rest = ['A','t','t','a','c','h','e','d'] then .reply ['1'] s
      else if rest = ['f','T','h','r','e','a','d','I','n','f','o'] then .reply ['m', '0'] s
      else if rest = ['s','T','h','r','e','a','d','I','n','f','o'] then .reply ['l'] s
      else if rest = ['S','y','m','b','o','l',':',':'] then .reply ['O', 'K'] s
      else .reply [] s
    else if cmd = 'd' then .reply [] { s with remoteDebug := !s.remoteDebug }
    else if cmd = 'g' then cmdG fault s
    else if cmd = 'G' then cmdGSet fault rest s
    else if cmd = 'P' then cmdP fault rest s
    else if cmd = 'm' then cmdM fault rest s
    else if cmd = 'M' then cmdMSet fault rest s
    else if cmd = 's' then .resume { s with regs := csStep true rest s.regs }
    else if cmd = 'c' then .resume { s with regs := csStep false rest s.regs }
    else if cmd = 'k' then .reply [] s
    else .reply [] s

/--
The running 8-bit checksum over payload bytes: both `getpacket`
(`checksum = checksum + ch`) and `putpacket` (`checksum += ch`)
accumulate into an `unsigned char`, i.e. mod 256 at every step.
-/
def checksumOf (p : List Char) : Nat :=
  p.foldl (fun a c => (a + c.toNat) % 256) 0

/--
One framed transmission of `putpacket`:
`$`, the payload bytes (up to the NUL terminator), `#`, then
`hexchars[checksum >> 4]` and `hexchars[checksum % 16]`.
-/
def frame (p : List Char) : List Char :=
  '$' :: p ++
    ['#', hexchars.getD (checksumOf p >>> 4) ' ',
      hexchars.getD (checksumOf p % 16) ' ']

/--
`static void putpacket(unsigned char *buffer)`: the
`do { ... } while (getDebugChar() != '+');` retransmission loop,
driven by the stream `acks` of bytes the transport returns.  `none`
models a transport that never acknowledges (the loop never exits).
-/
def putpacketRun (p : List Char) : List Char → Option (List Char)
  | [] => none
  | a :: rest =>
    if a = '+' then some (frame p)
    else (putpacketRun p rest).map (fun out => frame p ++ out)

/-- Result of the inner read loop of `getpacket` (`while (count < BUFMAX)`). -/
inductive ReadResult where
  | hash (payload : List Char) (rest : List Char)
  | dollar (partial_ : List Char) (rest : List Char)
  | overflow (payload : List Char) (rest : List Char)
  | starve

/--
The inner read loop of `getpacket`: before each read the guard
`count < BUFMAX` is checked (overflow exits the loop with the buffer
full); a `'$'` aborts to the `retry:` label, a `'#'` ends the payload,
any other byte is appended to the buffer.
-/
def readLoop (acc : List Char) : List Char → ReadResult
  | [] => if BUFMAX ≤ acc.length then .overflow acc [] else .starve
  | ch :: rest =>
    if BUFMAX ≤ acc.length then .overflow acc (ch :: rest)
    else if ch = '$' then .dollar acc rest
    else if ch = '#' then .hash acc rest
    else readLoop (acc ++ [ch]) rest

/-- Store `p` at the start of `remcomInBuffer` (the read loop's
`buffer[count] = ch` writes), leaving older contents beyond. -/
def writeBytes (old : Nat → Char) (p : List Char) : Nat → Char :=
  fun i => if i < p.length then p.getD i nul else old i

/-- `writeBytes` followed by the terminator write `buffer[count] = 0`
after the read loop. -/
def writeBuf (old : Nat → Char) (p : List Char) : Nat → Char :=
  fun i =>
    if i < p.length then p.getD i nul
    else if i = p.length then nul
    else old i

/--
The accept path of `getpacket` (after a checksum match):
`putDebugChar('+')`, then if `buffer[2] == ':'` echo `buffer[0]` and
`buffer[1]` and `return &buffer[3]`, else `return &buffer[0]`.
Returns (bytes emitted, offset returned into the buffer, buffer
contents).
-/
def acceptPacket (old : Nat → Char) (p : List Char) :
    List Char × Nat × (Nat → Char) :=
  let buf := writeBuf old p
  if buf 2 = ':' then (['+', buf 0, buf 1], 3, buf)
  else (['+'], 0, buf)

/-- The observable result of a successful `getpacket` call. -/
structure GPResult where
  negAcks : Nat
  emitted : List Char
  offset : Nat
  buf : Nat → Char
  payload : List Char
  rest : List Char

/--
`static unsigned char *getpacket(void)` on a finite input stream, with
recursion fuel (each outer-loop round consumes input; `none` models a
stub blocked waiting for more bytes).  The outer `while (1)` discards
bytes until `'$'`; a `goto retry` is re-entered here by pushing the
`'$'` back onto the stream.  Aborted rounds leave their partial writes
in the buffer, which is threaded through (`remcomInBuffer` is static).
A checksum mismatch emits `'-'` (counted in `negAcks`) and rescans.
-/
def getpacketF : Nat → (Nat → Char) → List Char → Option GPResult
  | 0, _, _ => none
  | fuel + 1, old, input =>
    match input.dropWhile (fun c => c ≠ '$') with
    | [] => none
    | _ :: afterD =>
      match readLoop [] afterD with
      | .starve => none
      | .dollar part rest => getpacketF fuel (writeBytes old part) ('$' :: rest)
      | .overflow p rest => getpacketF fuel (writeBuf old p) rest
      | .hash p rest =>
        match rest with
        | c1 :: c2 :: rest2 =>
          if checksumOf p = hexPairByte c1 c2 then
            let a := acceptPacket old p
            some ⟨0, a.1, a.2.1, a.2.2, p, rest2⟩
          else
            (getpacketF fuel (writeBuf old p) rest2).map
              (fun r => { r with negAcks := r.negAcks + 1 })
        | _ => none

/-- The signals whose handlers the stub manages. -/
inductive Sig where
  | SEGV
  | FPE
  | TRAP
  | ILL
deriving DecidableEq

/-- A handler value passed to `signal()`: `SIG_DFL` or one of the
stub's four handlers. -/
inductive Handler where
  | dfl
  | stubHandler (s : Sig)
deriving DecidableEq

/-- The `signal(...)` calls of `set_debug_traps`, in order. -/
def setDebugTrapsCalls : List (Sig × Handler) :=
  [(.SEGV, .stubHandler .SEGV), (.FPE, .stubHandler .FPE),
    (.TRAP, .stubHandler .TRAP), (.ILL, .stubHandler .ILL)]

/-- The `signal(...)` calls of `restore_traps`, in order:
`SIGSEGV, SIGTRAP, SIGFPE, SIGTRAP, SIGILL`, all to `SIG_DFL`. -/
def restoreTrapsCalls : List (Sig × Handler) :=
  [(.SEGV, .dfl), (.TRAP, .dfl), (.FPE, .dfl), (.TRAP, .dfl), (.ILL, .dfl)]

/--
The hex text `mem2hex` deposits in the output buffer when no memory
fault interrupts it: two lowercase hex characters per byte, in address
order (derived description used in theorem statements).
-/
def hexDump (mem : Nat → Nat) : Nat → Nat → List Char
  | _, 0 => []
  | addr, n + 1 =>
    hexchars.getD ((mem addr % 256) >>> 4) ' ' ::
      hexchars.getD (mem addr % 256 % 16) ' ' :: hexDump mem (addr + 1) n

/-! ### Helper lemmas -/

theorem hex_hexchars_getD {k : Nat} (h : k < 16) :
    hex (hexchars.getD k ' ') = (k : Int) := by
  have : ∀ k : Fin 16, hex (hexchars.getD k.val ' ') = (k.val : Int) := by decide
  exact this ⟨k, h⟩

theorem hexchars_getD_mem {k : Nat} (h : k < 16) :
    hexchars.getD k ' ' ∈ hexchars := by
  have : ∀ k : Fin 16, hexchars.getD k.val ' ' ∈ hexchars := by decide
  exact this ⟨k, h⟩

theorem hexPairByte_val {k1 k2 : Nat} (c1 c2 : Char) (h1 : k1 < 16) (h2 : k2 < 16)
    (e1 : hex c1 = (k1 : Int)) (e2 : hex c2 = (k2 : Int)) :
    hexPairByte c1 c2 = 16 * k1 + k2 := by
  unfold hexPairByte
  rw [e1, e2]
  have q1 : ((k1 : Int) * 16).emod 256 = (k1 : Int) * 16 :=
    Int.emod_eq_of_lt (by positivity) (by omega)
  rw [q1]
  have q2 : ((k1 : Int) * 16 + (k2 : Int)).emod 256 = (k1 : Int) * 16 + (k2 : Int) :=
    Int.emod_eq_of_lt (by positivity) (by omega)
  rw [q2]
  omega

theorem hexPairByte_encode {b : Nat} (h : b < 256) :
    hexPairByte (hexchars.getD (b >>> 4) ' ') (hexchars.getD (b % 16) ' ') = b := by
  have h1 : b >>> 4 < 16 := by
    simp only [Nat.shiftRight_eq_div_pow]; omega
  have h2 : b % 16 < 16 := Nat.mod_lt _ (by omega)
  rw [hexPairByte_val _ _ h1 h2 (hex_hexchars_getD h1) (hex_hexchars_getD h2)]
  simp only [Nat.shiftRight_eq_div_pow] at h1 ⊢
  omega

theorem checksumOf_go (p : List Char) :
    ∀ a, a < 256 →
      p.foldl (fun a c => (a + c.toNat) % 256) a =
        (a + (p.map Char.toNat).sum) % 256 := by
  induction p with
  | nil => intro a ha; simpa using (Nat.mod_eq_of_lt ha).symm
  | cons c p ih =>
    intro a ha
    simp only [List.foldl_cons, List.map_cons, List.sum_cons]
    rw [ih _ (Nat.mod_lt _ (by omega))]
    omega

theorem checksumOf_eq_sum (p : List Char) :
    checksumOf p = (p.map Char.toNat).sum % 256 := by
  simpa using checksumOf_go p 0 (by omega)

theorem checksumOf_lt (p : List Char) : checksumOf p < 256 := by
  rw [checksumOf_eq_sum]; omega

/-! ### Claim theorems -/

/--
C3: for every exception vector `v`, `computeSignal v` returns exactly
the GDB signal of the spec's table: `0 ↦ 8`; `1 ↦ 5`; `3, 302 ↦ 5`;
`4, 5 ↦ 16`; `6 ↦ 4`; `7 ↦ 8`; `8 ↦ 7`; `9..14 ↦ 11`; `16 ↦ 7`;
every other vector `↦ 7`.
-/
theorem C3_computeSignal_table (v : Int) :
    computeSignal v =
      (if v = 0 then 8
       else if v = 1 then 5
       else if v = 3 ∨ v = 302 then 5
       else if v = 4 ∨ v = 5 then 16
       else if v = 6 then 4
       else if v = 7 then 8
       else if v = 8 then 7
       else if 9 ≤ v ∧ v ≤ 14 then 11
       else if v = 16 then 7
       else 7) := by
  by_cases h0 : v = 0
  · subst h0; rfl
  by_cases h1 : v = 1
  · subst h1; rfl
  by_cases h302 : v = 302
  · subst h302; rfl
  by_cases h3 : v = 3
  · subst h3; rfl
  by_cases h4 : v = 4
  · subst h4; rfl
  by_cases h5 : v = 5
  · subst h5; rfl
  by_cases h6 : v = 6
  · subst h6; rfl
  by_cases h7 : v = 7
  · subst h7; rfl
  by_cases h8 : v = 8
  · subst h8; rfl
  by_cases h9 : v = 9
  · subst h9; rfl
  by_cases h10 : v = 10
  · subst h10; rfl
  by_cases h11 : v = 11
  · subst h11; rfl
  by_cases h12 : v = 12
  · subst h12; rfl
  by_cases h13 : v = 13
  · subst h13; rfl
  by_cases h14 : v = 14
  · subst h14; rfl
  by_cases h16 : v = 16
  · subst h16; rfl
  have hA : ¬(v = 3 ∨ v = 302) := by tauto
  have hB : ¬(v = 4 ∨ v = 5) := by tauto
  have hC : ¬(9 ≤ v ∧ v ≤ 14) := by omega
  simp only [computeSignal, if_neg h0, if_neg h1, if_neg h302, if_neg h3,
    if_neg h4, if_neg h5, if_neg h6, if_neg h7, if_neg h8, if_neg h9,
    if_neg h10, if_neg h11, if_neg h12, if_neg h13, if_neg h14, if_neg h16,
    if_neg hA, if_neg hB, if_neg hC]

/--
C1: for a `c` or `s` command whose packet carries no hex address
argument, `handle_exception` leaves `registers[PC]` unchanged; EFLAGS
bit 8 (the trace flag) in `registers[PS]` is set to 1 on `s` and to 0
on `c` regardless of its prior value; every snapshot register other
than `PS` is unchanged.  `processCommand` dispatches `'s'`/`'c'` to
`csStep` with `stepping` = `true`/`false`.
-/
theorem C1_resume_trace_flag (stepping : Bool) (rest : List Char)
    (regs : Fin 16 → Nat) (h : (hexToInt rest).1 = 0) :
    (∀ i : Fin 16, i ≠ PS → csStep stepping rest regs i = regs i) ∧
    (csStep stepping rest regs PS).testBit 8 = stepping ∧
    (∀ fault sigval (s : Stub),
      processCommand fault sigval ('s' :: rest) s =
        .resume { s with regs := csStep true rest s.regs }) ∧
    (∀ fault sigval (s : Stub),
      processCommand fault sigval ('c' :: rest) s =
        .resume { s with regs := csStep false rest s.regs }) := by
  have key : csStep stepping rest regs =
      Function.update regs PS
        (if stepping then (regs PS &&& 0xfffffeff) ||| 0x100
         else regs PS &&& 0xfffffeff) := by
    cases stepping <;>
      simp [csStep, h, Function.update_same, Function.update_idem]
  refine ⟨?_, ?_, fun _ _ _ => rfl, fun _ _ _ => rfl⟩
  · intro i hi
    rw [key, Function.update_noteq hi]
  · have hm : Nat.testBit 0xfffffeff 8 = false := by decide
    have hb : Nat.testBit 0x100 8 = true := by decide
    rw [key, Function.update_same]
    cases stepping
    · simp [Nat.testBit_and, hm]
    · simp [Nat.testBit_or, Nat.testBit_and, hm, hb]

/-- Witness for C1 at the concrete empty argument list. -/
theorem C1_resume_trace_flag_witness :
    (hexToInt []).1 = 0 ∧
      (csStep true [] (fun _ => 0) PS).testBit 8 = true ∧
      (csStep false [] (fun _ => 0) PS).testBit 8 = false := by
  refine ⟨rfl, ?_, ?_⟩
  · exact (C1_resume_trace_flag true [] (fun _ => 0) rfl).2.1
  · exact (C1_resume_trace_flag false [] (fun _ => 0) rfl).2.1

/--
C9 counterexample: the claim says `restore_traps` never restores the
SIGFPE handler to its default, but the call list of the source
(`restore_traps`, lines 1037-1041) contains `signal(SIGFPE, SIG_DFL)`.
-/
theorem C9_counterexample_sigfpe_restored :
    (Sig.FPE, Handler.dfl) ∈ restoreTrapsCalls ∧
      restoreTrapsCalls =
        [(.SEGV, .dfl), (.TRAP, .dfl), (.FPE, .dfl), (.TRAP, .dfl), (.ILL, .dfl)] := by
  exact ⟨by decide, rfl⟩

/--
C9 amended: `restore_traps` invokes `signal(SIGTRAP, SIG_DFL)` twice,
and it restores all four handlers installed by `set_debug_traps`
(SIGSEGV, SIGFPE, SIGTRAP, SIGILL) to their defaults, SIGFPE included.
-/
theorem C9_restore_traps_amended :
    (restoreTrapsCalls.filter (fun c => c.1 = Sig.TRAP)).length = 2 ∧
    (Sig.SEGV, Handler.stubHandler Sig.SEGV) ∈ setDebugTrapsCalls ∧
    (Sig.FPE, Handler.stubHandler Sig.FPE) ∈ setDebugTrapsCalls ∧
    (Sig.TRAP, Handler.stubHandler Sig.TRAP) ∈ setDebugTrapsCalls ∧
    (Sig.ILL, Handler.stubHandler Sig.ILL) ∈ setDebugTrapsCalls ∧
    (Sig.SEGV, Handler.dfl) ∈ restoreTrapsCalls ∧
    (Sig.FPE, Handler.dfl) ∈ restoreTrapsCalls ∧
    (Sig.TRAP, Handler.dfl) ∈ restoreTrapsCalls ∧
    (Sig.ILL, Handler.dfl) ∈ restoreTrapsCalls := by
  decide

theorem readLoop_fill (pre : List Char) :
    ∀ acc rest, acc.length + pre.length = BUFMAX →
      (∀ c ∈ pre, c ≠ '$' ∧ c ≠ '#') →
      readLoop acc (pre ++ rest) = .overflow (acc ++ pre) rest := by
  induction pre with
  | nil =>
    intro acc rest hlen _
    simp only [List.length_nil, Nat.add_zero] at hlen
    have hge : BUFMAX ≤ acc.length := hlen.ge
    cases rest with
    | nil => simp [readLoop, hge]
    | cons d ds => simp [readLoop, hge]
  | cons c pre ih =>
    intro acc rest hlen hc
    have hacc : acc.length < BUFMAX := by
      simp only [List.length_cons] at hlen; omega
    have hc1 := hc c (by simp)
    have step : readLoop acc ((c :: pre) ++ rest) =
        readLoop (acc ++ [c]) (pre ++ rest) := by
      show (if BUFMAX ≤ acc.length then ReadResult.overflow acc (c :: (pre ++ rest))
        else if c = '$' then ReadResult.dollar acc (pre ++ rest)
        else if c = '#' then ReadResult.hash acc (pre ++ rest)
        else readLoop (acc ++ [c]) (pre ++ rest)) = _
      rw [if_neg (by omega), if_neg hc1.1, if_neg hc1.2]
    rw [step, ih (acc ++ [c]) rest
      (by
        simp only [List.length_append, List.length_cons,
          List.length_nil] at hlen ⊢
        omega)
      (fun x hx => hc x (by simp [hx]))]
    simp

theorem readLoop_hash_lt (input : List Char) :
    ∀ acc p rest, readLoop acc input = .hash p rest → p.length < BUFMAX := by
  induction input with
  | nil =>
    intro acc p rest h
    have e : readLoop acc [] =
        if BUFMAX ≤ acc.length then ReadResult.overflow acc [] else .starve := rfl
    rw [e] at h
    by_cases hb : BUFMAX ≤ acc.length
    · rw [if_pos hb] at h
      exact ReadResult.noConfusion h
    · rw [if_neg hb] at h
      exact ReadResult.noConfusion h
  | cons c cs ih =>
    intro acc p rest h
    have e : readLoop acc (c :: cs) =
        if BUFMAX ≤ acc.length then ReadResult.overflow acc (c :: cs)
        else if c = '$' then ReadResult.dollar acc cs
        else if c = '#' then ReadResult.hash acc cs
        else readLoop (acc ++ [c]) cs := rfl
    rw [e] at h
    by_cases hb : BUFMAX ≤ acc.length
    · rw [if_pos hb] at h
      exact ReadResult.noConfusion h
    · rw [if_neg hb] at h
      by_cases hd : c = '$'
      · rw [if_pos hd] at h
        exact ReadResult.noConfusion h
      · rw [if_neg hd] at h
        by_cases hh : c = '#'
        · rw [if_pos hh] at h
          injection h with h1 h2
          subst h1
          omega
        · rw [if_neg hh] at h
          exact ih _ _ _ h

/--
C10: `getpacket` stores payload bytes at indices `0..count-1` of the
400-byte `remcomInBuffer` and writes a NUL terminator at index
`count`.  If 400 payload bytes arrive before a `#` or `$`, the read
loop exits with `count = BUFMAX` and the terminator write
`buffer[count] = 0` targets index 400, one element past the end of the
buffer; for accepted (`#`-terminated) payloads the length is at most
`BUFMAX - 1 = 399` and every written index, terminator included, is in
bounds.
-/
theorem C10_inbound_buffer_bounds :
    (∀ pre rest : List Char, pre.length = BUFMAX →
      (∀ c ∈ pre, c ≠ '$' ∧ c ≠ '#') →
      readLoop [] (pre ++ rest) = .overflow pre rest ∧ ¬ pre.length < BUFMAX) ∧
    (∀ input p rest, readLoop [] input = .hash p rest →
      p.length ≤ BUFMAX - 1 ∧ ∀ i, i ≤ p.length → i < BUFMAX) := by
  constructor
  · intro pre rest hlen hc
    constructor
    · have := readLoop_fill pre [] rest (by simpa using hlen) hc
      simpa using this
    · omega
  · intro input p rest h
    have := readLoop_hash_lt input [] p rest h
    constructor
    · omega
    · intro i hi; omega

/-- Witness for C10: a 400-byte run of `'a'`s overflows with the
terminator index out of bounds, and the accepted payload `"g"` stays
in bounds. -/
theorem C10_inbound_buffer_bounds_witness :
    (readLoop [] (List.replicate 400 'a' ++ ['#']) =
        .overflow (List.replicate 400 'a') ['#'] ∧
      ¬ (List.replicate 400 'a').length < BUFMAX) ∧
    (['g'] : List Char).length ≤ BUFMAX - 1 := by
  constructor
  · exact C10_inbound_buffer_bounds.1 (List.replicate 400 'a') ['#']
      (by rw [List.length_replicate]; rfl)
      (by intro c hc; rw [List.eq_of_mem_replicate hc]; exact ⟨by decide, by decide⟩)
  · exact (C10_inbound_buffer_bounds.2 ['g', '#'] ['g'] [] rfl).1

theorem intIter_eq_of_lt {n : Nat} (h : n < 2 ^ 31) : intIter n = n := if_pos h

theorem getD_drop (l : List Char) (k i : Nat) (d : Char) :
    (l.drop k).getD i d = l.getD (k + i) d := by
  simp [List.getD_eq_getElem?_getD, List.getElem?_drop]

theorem mem2hexGo_false (mem : Nat → Nat) (fault : Nat → Bool) :
    ∀ n addr me,
      mem2hexGo mem fault false addr n ⟨me, false⟩ =
        (hexDump mem addr n, ⟨me, false⟩, false) := by
  intro n
  induction n with
  | zero => intro addr me; rfl
  | succ n ih =>
    intro addr me
    simp only [mem2hexGo, Bool.false_and, Bool.and_false, if_false,
      Bool.false_eq_true, hexDump, ih (addr + 1) me]

theorem hex2memGo_false_state (fault : Nat → Bool) :
    ∀ n buf addr mem me,
      (hex2memGo fault false buf addr n mem ⟨me, false⟩).2 = (⟨me, false⟩, false) := by
  intro n
  induction n with
  | zero => intro buf addr mem me; rfl
  | succ n ih =>
    intro buf addr mem me
    simp only [hex2memGo, Bool.false_and, Bool.and_false, if_false,
      Bool.false_eq_true, ih]

theorem hex2memGo_false_mem (fault : Nat → Bool) :
    ∀ n buf addr mem me a,
      (hex2memGo fault false buf addr n mem ⟨me, false⟩).1 a =
        (if addr ≤ a ∧ a < addr + n then
          hexPairByte (buf.getD (2 * (a - addr)) nul)
            (buf.getD (2 * (a - addr) + 1) nul)
        else mem a) := by
  intro n
  induction n with
  | zero =>
    intro buf addr mem me a
    show mem a = _
    rw [if_neg (by omega)]
  | succ n ih =>
    intro buf addr mem me a
    simp only [hex2memGo, Bool.false_and, Bool.and_false, if_false,
      Bool.false_eq_true]
    rw [ih]
    by_cases hwin : addr ≤ a ∧ a < addr + (n + 1)
    · rw [if_pos hwin]
      by_cases ha : a = addr
      · subst ha
        have : ¬(a + 1 ≤ a ∧ a < a + 1 + n) := by omega
        rw [if_neg this]
        simp
      · have hrec : addr + 1 ≤ a ∧ a < addr + 1 + n := by omega
        rw [if_pos hrec, getD_drop, getD_drop]
        have e1 : 2 + 2 * (a - (addr + 1)) = 2 * (a - addr) := by omega
        have e2 : 2 + (2 * (a - (addr + 1)) + 1) = 2 * (a - addr) + 1 := by omega
        rw [e1, e2]
    · rw [if_neg hwin]
      have : ¬(addr + 1 ≤ a ∧ a < addr + 1 + n) := by omega
      rw [if_neg this]
      have : a ≠ addr := by omega
      simp [this]

theorem hexDump_length (mem : Nat → Nat) :
    ∀ n addr, (hexDump mem addr n).length = 2 * n := by
  intro n
  induction n with
  | zero => intro addr; rfl
  | succ n ih =>
    intro addr
    simp only [hexDump, List.length_cons, ih]
    omega

theorem hexDump_mem_hexchars (mem : Nat → Nat) :
    ∀ n addr c, c ∈ hexDump mem addr n → c ∈ hexchars := by
  intro n
  induction n with
  | zero => intro addr c h; exact absurd h (by simp [hexDump])
  | succ n ih =>
    intro addr c h
    simp only [hexDump, List.mem_cons] at h
    rcases h with h | h | h
    · subst h
      exact hexchars_getD_mem (by
        have : mem addr % 256 < 256 := Nat.mod_lt _ (by omega)
        simp only [Nat.shiftRight_eq_div_pow]
        omega)
    · subst h
      exact hexchars_getD_mem (Nat.mod_lt _ (by omega))
    · exact ih (addr + 1) c h

theorem hexDump_getD (mem : Nat → Nat) :
    ∀ n addr i, i < n →
      (hexDump mem addr n).getD (2 * i) nul =
          hexchars.getD ((mem (addr + i) % 256) >>> 4) ' ' ∧
      (hexDump mem addr n).getD (2 * i + 1) nul =
          hexchars.getD (mem (addr + i) % 256 % 16) ' ' := by
  intro n
  induction n with
  | zero => intro addr i hi; omega
  | succ n ih =>
    intro addr i hi
    cases i with
    | zero => simp [hexDump]
    | succ i =>
      have e1 : 2 * (i + 1) = (2 * i + 1) + 1 := by omega
      have h2 := ih (addr + 1) i (by omega)
      have e3 : addr + 1 + i = addr + (i + 1) := by omega
      rw [e3] at h2
      constructor
      · rw [e1]
        simpa [hexDump, List.getD_cons_succ] using h2.1
      · rw [e1]
        simpa [hexDump, List.getD_cons_succ] using h2.2

/--
C2: for a byte region of length `n` (all values `< 256`), `mem2hex`
with `may_fault = 0` produces exactly `2n` lowercase hex characters
from `hexchars` followed by a NUL terminator, and `hex2mem` applied to
that hex text with count `n` writes the original bytes back:
`hex_to_mem(mem_to_hex(B)) = B`.
-/
theorem C2_hex_roundtrip (mem mem2 : Nat → Nat) (fault fault2 : Nat → Bool)
    (addr addr2 n : Nat) (me me2 : Bool)
    (hn : n < 2 ^ 31) (hb : ∀ i, i < n → mem (addr + i) < 256) :
    (mem2hex mem fault addr n false ⟨me, false⟩).1.length = 2 * n ∧
    (∀ c ∈ (mem2hex mem fault addr n false ⟨me, false⟩).1, c ∈ hexchars) ∧
    (mem2hex mem fault addr n false ⟨me, false⟩).2.2 = true ∧
    (∀ i, i < n →
      (hex2mem (mem2hex mem fault addr n false ⟨me, false⟩).1 fault2 mem2 addr2 n
          false ⟨me2, false⟩).1 (addr2 + i) = mem (addr + i)) := by
  have hm2h : mem2hex mem fault addr n false ⟨me, false⟩ =
      (hexDump mem addr n, ⟨me, false⟩, true) := by
    unfold mem2hex
    rw [intIter_eq_of_lt hn]
    simp [mem2hexGo_false]
  rw [hm2h]
  refine ⟨hexDump_length mem n addr, fun c hc => hexDump_mem_hexchars mem n addr c hc,
    rfl, ?_⟩
  intro i hi
  have hh2m : (hex2mem (hexDump mem addr n) fault2 mem2 addr2 n false
      ⟨me2, false⟩).1 (addr2 + i) =
      (hex2memGo fault2 false (hexDump mem addr n) addr2 n mem2 ⟨me2, false⟩).1
        (addr2 + i) := by
    unfold hex2mem
    rw [intIter_eq_of_lt hn]
    have hs := hex2memGo_false_state fault2 n (hexDump mem addr n) addr2 mem2 me2
    simp [hs]
  rw [hh2m, hex2memGo_false_mem]
  have hwin : addr2 ≤ addr2 + i ∧ addr2 + i < addr2 + n := by omega
  rw [if_pos hwin]
  have e : addr2 + i - addr2 = i := by omega
  rw [e]
  have hg := hexDump_getD mem n addr i hi
  have hb' : mem (addr + i) % 256 = mem (addr + i) :=
    Nat.mod_eq_of_lt (hb i hi)
  rw [hg.1, hg.2, hb']
  exact hexPairByte_encode (hb i hi)

/-- Witness for C2: the two bytes `0x01, 0xab` round-trip through the
hex codec. -/
theorem C2_hex_roundtrip_witness :
    (mem2hex (fun a => if a = 0 then 1 else 0xab) (fun _ => false) 0 2 false
        ⟨false, false⟩).1.length = 2 * 2 ∧
    (∀ i, i < 2 →
      (hex2mem (mem2hex (fun a => if a = 0 then 1 else 0xab) (fun _ => false) 0 2
            false ⟨false, false⟩).1
          (fun _ => false) (fun _ => 0) 8 2 false ⟨false, false⟩).1 (8 + i) =
        (fun a => if a = 0 then 1 else 0xab) (0 + i)) := by
  have h := C2_hex_roundtrip (fun a => if a = 0 then 1 else 0xab) (fun _ => 0)
    (fun _ => false) (fun _ => false) 0 8 2 false false (by norm_num)
    (by
      intro i _
      show (if 0 + i = 0 then 1 else 171) < 256
      split_ifs <;> norm_num)
  exact ⟨h.1, h.2.2.2⟩

theorem putpacketRun_retry (p : List Char) :
    ∀ bad rest, (∀ b ∈ bad, b ≠ '+') →
      putpacketRun p (bad ++ '+' :: rest) =
        some ((List.replicate (bad.length + 1) (frame p)).flatten) := by
  intro bad
  induction bad with
  | nil => intro rest _; simp [putpacketRun]
  | cons b bs ih =>
    intro rest hb
    have hb1 : b ≠ '+' := hb b (by simp)
    have ihr := ih rest (fun x hx => hb x (by simp [hx]))
    rw [List.cons_append]
    show (if b = '+' then some (frame p)
      else (putpacketRun p (bs ++ '+' :: rest)).map fun out => frame p ++ out) = _
    rw [if_neg hb1, ihr]
    simp [List.replicate_succ]

/--
C4: `putpacket` emits exactly `$`, the payload bytes, `#`, and two
lowercase hex characters encoding the 8-bit sum of the payload bytes
mod 256; reading one transport byte after each transmission, it
retransmits the identical frame until that byte is `'+'` (any other
byte, `'-'` included, causes a retransmission).
-/
theorem C4_putpacket_frame_checksum (p bad rest : List Char)
    (hp : ∀ c ∈ p, c.toNat ≠ 0 ∧ c.toNat < 256)
    (hbad : ∀ b ∈ bad, b ≠ '+') :
    putpacketRun p (bad ++ '+' :: rest) =
      some ((List.replicate (bad.length + 1) (frame p)).flatten) ∧
    frame p = '$' :: p ++
      ['#', hexchars.getD (checksumOf p >>> 4) ' ',
        hexchars.getD (checksumOf p % 16) ' '] ∧
    hexchars.getD (checksumOf p >>> 4) ' ' ∈ hexchars ∧
    hexchars.getD (checksumOf p % 16) ' ' ∈ hexchars ∧
    hex (hexchars.getD (checksumOf p >>> 4) ' ') * 16 +
        hex (hexchars.getD (checksumOf p % 16) ' ') =
      (((p.map Char.toNat).sum % 256 : Nat) : Int) := by
  have hcs := checksumOf_lt p
  have h1 : checksumOf p >>> 4 < 16 := by
    simp only [Nat.shiftRight_eq_div_pow]
    omega
  have h2 : checksumOf p % 16 < 16 := Nat.mod_lt _ (by omega)
  refine ⟨putpacketRun_retry p bad rest hbad, rfl, hexchars_getD_mem h1,
    hexchars_getD_mem h2, ?_⟩
  rw [hex_hexchars_getD h1, hex_hexchars_getD h2, ← checksumOf_eq_sum p]
  simp only [Nat.shiftRight_eq_div_pow] at *
  push_cast
  omega

/-- Witness for C4 at payload `"OK"` with one `'-'` nak before the ack. -/
theorem C4_putpacket_frame_checksum_witness :
    putpacketRun ['O', 'K'] (['-'] ++ '+' :: []) =
      some ((List.replicate 2 (frame ['O', 'K'])).flatten) ∧
    hex (hexchars.getD (checksumOf ['O', 'K'] >>> 4) ' ') * 16 +
        hex (hexchars.getD (checksumOf ['O', 'K'] % 16) ' ') =
      ((([ 'O', 'K'].map Char.toNat).sum % 256 : Nat) : Int) := by
  have h := C4_putpacket_frame_checksum ['O', 'K'] ['-'] []
    (by intro c hc; fin_cases hc <;> exact ⟨by decide, by decide⟩)
    (by intro b hb; fin_cases hb; decide)
  exact ⟨h.1, h.2.2.2.2⟩

theorem mem2hexGo_inv (mem : Nat → Nat) (fault : Nat → Bool) (mf : Bool) :
    ∀ n addr (s : MState), (s.memErr = true → s.armed = false) →
      ((mem2hexGo mem fault mf addr n s).2.1.memErr = true →
        (mem2hexGo mem fault mf addr n s).2.1.armed = false) ∧
      ((mem2hexGo mem fault mf addr n s).2.2 = true →
        (mem2hexGo mem fault mf addr n s).2.1.memErr = true) := by
  intro n
  induction n with
  | zero =>
    intro addr s hinv
    exact ⟨hinv, fun h => Bool.noConfusion h⟩
  | succ n ih =>
    intro addr s hinv
    simp only [mem2hexGo]
    by_cases hf : s.armed && fault addr
    · simp only [hf, if_true]
      by_cases hm : mf
      · simp only [hm, Bool.true_and, if_pos rfl]
        exact ⟨fun _ => rfl, fun _ => rfl⟩
      · have hm' : mf = false := by simpa using hm
        subst hm'
        simp only [Bool.false_and, Bool.false_eq_true, if_false]
        exact ih (addr + 1) ⟨true, false⟩ (fun _ => rfl)
    · simp only [Bool.not_eq_true] at hf
      simp only [hf, Bool.false_eq_true, if_false]
      by_cases hg : mf && s.memErr
      · simp only [hg, if_true]
        exact ⟨hinv, fun _ => (Bool.and_eq_true _ _ |>.mp hg).2⟩
      · simp only [Bool.not_eq_true] at hg
        simp only [hg, Bool.false_eq_true, if_false]
        exact ih (addr + 1) s hinv

theorem hex2memGo_inv (fault : Nat → Bool) (mf : Bool) :
    ∀ n buf addr mem (s : MState), (s.memErr = true → s.armed = false) →
      ((hex2memGo fault mf buf addr n mem s).2.1.memErr = true →
        (hex2memGo fault mf buf addr n mem s).2.1.armed = false) ∧
      ((hex2memGo fault mf buf addr n mem s).2.2 = true →
        (hex2memGo fault mf buf addr n mem s).2.1.memErr = true) := by
  intro n
  induction n with
  | zero =>
    intro buf addr mem s hinv
    exact ⟨hinv, fun h => Bool.noConfusion h⟩
  | succ n ih =>
    intro buf addr mem s hinv
    simp only [hex2memGo]
    by_cases hf : s.armed && fault addr
    · simp only [hf, if_true]
      by_cases hm : mf
      · simp only [hm, Bool.true_and, if_pos rfl]
        exact ⟨fun _ => rfl, fun _ => rfl⟩
      · have hm' : mf = false := by simpa using hm
        subst hm'
        simp only [Bool.false_and, Bool.false_eq_true, if_false]
        exact ih (buf.drop 2) (addr + 1) _ ⟨true, false⟩ (fun _ => rfl)
    · simp only [Bool.not_eq_true] at hf
      simp only [hf, Bool.false_eq_true, if_false]
      by_cases hg : mf && s.memErr
      · simp only [hg, if_true]
        exact ⟨hinv, fun _ => (Bool.and_eq_true _ _ |>.mp hg).2⟩
      · simp only [Bool.not_eq_true] at hg
        simp only [hg, Bool.false_eq_true, if_false]
        exact ih (buf.drop 2) (addr + 1) _ s hinv

theorem mem2hex_true_armed (mem : Nat → Nat) (fault : Nat → Bool)
    (addr count : Nat) (s : MState) (hme : s.memErr = false) :
    (mem2hex mem fault addr count true s).2.1.armed = false := by
  have h0 : mem2hex mem fault addr count true s =
      (if (mem2hexGo mem fault true addr (intIter count) ⟨s.memErr, true⟩).2.2
        then ((mem2hexGo mem fault true addr (intIter count) ⟨s.memErr, true⟩).1,
          (mem2hexGo mem fault true addr (intIter count) ⟨s.memErr, true⟩).2.1, false)
        else ((mem2hexGo mem fault true addr (intIter count) ⟨s.memErr, true⟩).1,
          ⟨(mem2hexGo mem fault true addr (intIter count) ⟨s.memErr, true⟩).2.1.memErr,
            false⟩, true)) := rfl
  rw [h0, hme]
  have hinv := mem2hexGo_inv mem fault true (intIter count) addr ⟨false, true⟩
    (fun h => Bool.noConfusion h)
  by_cases he : (mem2hexGo mem fault true addr (intIter count) ⟨false, true⟩).2.2 = true
  · rw [if_pos he]
    exact hinv.1 (hinv.2 he)
  · rw [if_neg he]

theorem hex2mem_true_armed (buf : List Char) (fault : Nat → Bool)
    (mem : Nat → Nat) (addr count : Nat) (s : MState) (hme : s.memErr = false) :
    (hex2mem buf fault mem addr count true s).2.1.armed = false := by
  have h0 : hex2mem buf fault mem addr count true s =
      (if (hex2memGo fault true buf addr (intIter count) mem ⟨s.memErr, true⟩).2.2
        then ((hex2memGo fault true buf addr (intIter count) mem ⟨s.memErr, true⟩).1,
          (hex2memGo fault true buf addr (intIter count) mem ⟨s.memErr, true⟩).2.1, false)
        else ((hex2memGo fault true buf addr (intIter count) mem ⟨s.memErr, true⟩).1,
          ⟨(hex2memGo fault true buf addr (intIter count) mem
              ⟨s.memErr, true⟩).2.1.memErr, false⟩, true)) := rfl
  rw [h0, hme]
  have hinv := hex2memGo_inv fault true (intIter count) buf addr mem ⟨false, true⟩
    (fun h => Bool.noConfusion h)
  by_cases he : (hex2memGo fault true buf addr (intIter count) mem
      ⟨false, true⟩).2.2 = true
  · rw [if_pos he]
    exact hinv.1 (hinv.2 he)
  · rw [if_neg he]

theorem mem2hexGo_unarmed_id (mem : Nat → Nat) (fault : Nat → Bool) :
    ∀ n addr (s : MState), s.armed = false →
      (mem2hexGo mem fault false addr n s).2 = (s, false) := by
  intro n
  induction n with
  | zero => intro addr s _; rfl
  | succ n ih =>
    intro addr s hs
    simp only [mem2hexGo, hs, Bool.false_and, Bool.false_eq_true, if_false]
    exact ih (addr + 1) s hs

theorem hex2memGo_unarmed_id (fault : Nat → Bool) :
    ∀ n buf addr mem (s : MState), s.armed = false →
      (hex2memGo fault false buf addr n mem s).2 = (s, false) := by
  intro n
  induction n with
  | zero => intro buf addr mem s _; rfl
  | succ n ih =>
    intro buf addr mem s hs
    simp only [hex2memGo, hs, Bool.false_and, Bool.false_eq_true, if_false]
    exact ih (buf.drop 2) (addr + 1) _ s hs

theorem mem2hex_false_state (mem : Nat → Nat) (fault : Nat → Bool)
    (addr count : Nat) (s : MState) (hs : s.armed = false) :
    (mem2hex mem fault addr count false s).2.1 = s := by
  unfold mem2hex
  have h := mem2hexGo_unarmed_id mem fault (intIter count) addr s hs
  have he : (mem2hexGo mem fault false addr (intIter count) s).2.2 = false := by
    rw [h]
  have hst : (mem2hexGo mem fault false addr (intIter count) s).2.1 = s := by
    rw [h]
  simp only [he, Bool.false_eq_true, if_false, hst]

theorem hex2mem_false_state (buf : List Char) (fault : Nat → Bool)
    (mem : Nat → Nat) (addr count : Nat) (s : MState) (hs : s.armed = false) :
    (hex2mem buf fault mem addr count false s).2.1 = s := by
  unfold hex2mem
  have h := hex2memGo_unarmed_id fault (intIter count) buf addr mem s hs
  have he : (hex2memGo fault false buf addr (intIter count) mem s).2.2 = false := by
    rw [h]
  have hst : (hex2memGo fault false buf addr (intIter count) mem s).2.1 = s := by
    rw [h]
  simp only [he, Bool.false_eq_true, if_false, hst]

set_option maxRecDepth 4000 in
theorem cmdG_armed {fault : Nat → Bool} {s : Stub} {out : List Char} {s' : Stub}
    (hs : s.armed = false) (h : cmdG fault s = .reply out s') : s'.armed = false := by
  simp only [cmdG] at h
  cases h
  show (mem2hex (regByte s.regs) fault 0 NUMREGBYTES false
      ⟨s.memErr, s.armed⟩).2.1.armed = false
  rw [mem2hex_false_state _ _ _ _ ⟨s.memErr, s.armed⟩ hs]
  exact hs

set_option maxRecDepth 4000 in
theorem cmdGSet_armed {fault : Nat → Bool} {rest : List Char} {s : Stub}
    {out : List Char} {s' : Stub}
    (hs : s.armed = false) (h : cmdGSet fault rest s = .reply out s') :
    s'.armed = false := by
  simp only [cmdGSet] at h
  cases h
  show (hex2mem rest fault (regByte s.regs) 0 NUMREGBYTES false
      ⟨s.memErr, s.armed⟩).2.1.armed = false
  rw [hex2mem_false_state _ _ _ _ _ ⟨s.memErr, s.armed⟩ hs]
  exact hs

set_option maxRecDepth 4000 in
theorem cmdP_armed {fault : Nat → Bool} {rest : List Char} {s : Stub}
    {out : List Char} {s' : Stub}
    (hs : s.armed = false) (h : cmdP fault rest s = .reply out s') :
    s'.armed = false := by
  simp only [cmdP] at h
  split_ifs at h <;> cases h
  · show (hex2mem _ fault (regByte s.regs) _ 4 false
        ⟨s.memErr, s.armed⟩).2.1.armed = false
    rw [hex2mem_false_state _ _ _ _ _ ⟨s.memErr, s.armed⟩ hs]
    exact hs
  · exact hs
  · exact hs

set_option maxRecDepth 4000 in
theorem cmdM_armed {fault : Nat → Bool} {rest : List Char} {s : Stub}
    {out : List Char} {s' : Stub}
    (hs : s.armed = false) (h : cmdM fault rest s = .reply out s') :
    s'.armed = false := by
  simp only [cmdM] at h
  split_ifs at h <;> cases h <;>
    first
      | exact mem2hex_true_armed _ _ _ _ ⟨false, s.armed⟩ rfl
      | exact hs

set_option maxRecDepth 4000 in
theorem cmdMSet_armed {fault : Nat → Bool} {rest : List Char} {s : Stub}
    {out : List Char} {s' : Stub}
    (hs : s.armed = false) (h : cmdMSet fault rest s = .reply out s') :
    s'.armed = false := by
  simp only [cmdMSet] at h
  split_ifs at h <;> cases h <;>
    first
      | exact hex2mem_true_armed _ _ _ _ _ ⟨false, s.armed⟩ rfl
      | exact hs

set_option maxRecDepth 4000 in
/--
C5: the fault-armed window is closed whenever control is back in the
command loop: any `mem2hex` or `hex2mem` call with `may_fault = 1`
entered with `mem_err = 0` (as every call site does) returns with
`mem_fault_routine = NULL`, whether it completed normally or was cut
short by a fault (in which case the SIGSEGV handler invoked the armed
routine and cleared the pointer); and processing any command from a
state with `mem_fault_routine = NULL` fetches the next packet with
`mem_fault_routine = NULL` still.
-/
theorem C5_fault_window_closed :
    (∀ (mem : Nat → Nat) (fault : Nat → Bool) (addr count : Nat) (s : MState),
      s.memErr = false →
      (mem2hex mem fault addr count true s).2.1.armed = false) ∧
    (∀ (buf : List Char) (fault : Nat → Bool) (mem : Nat → Nat)
        (addr count : Nat) (s : MState), s.memErr = false →
      (hex2mem buf fault mem addr count true s).2.1.armed = false) ∧
    (∀ (fault : Nat → Bool) (sigval : Nat) (payload : List Char) (s : Stub)
        (out : List Char) (s' : Stub), s.armed = false →
      processCommand fault sigval payload s = .reply out s' →
      s'.armed = false) := by
  refine ⟨fun mem fault addr count s hme => mem2hex_true_armed mem fault addr count s hme,
    fun buf fault mem addr count s hme => hex2mem_true_armed buf fault mem addr count s hme,
    ?_⟩
  intro fault sigval payload s out s' hs h
  match payload, h with
  | [], h => cases h; exact hs
  | cmd :: rest, h =>
    by_cases e1 : cmd = '?'
    · subst e1
      have e : processCommand fault sigval ('?' :: rest) s =
          .reply ['S', hexchars.getD (sigval >>> 4) ' ',
            hexchars.getD (sigval % 16) ' '] s := rfl
      rw [e] at h; cases h; exact hs
    by_cases e2 : cmd = 'H'
    · subst e2
      have e : processCommand fault sigval ('H' :: rest) s =
          .reply ['O', 'K'] s := rfl
      rw [e] at h; cases h; exact hs
    by_cases e3 : cmd = 'q'
    · subst e3
      have e : processCommand fault sigval ('q' :: rest) s =
          (if rest = ['C'] then CmdResult.reply ['Q', 'C', '0'] s
           else if rest = ['A','t','t','a','c','h','e','d'] then .reply ['1'] s
           else if rest = ['f','T','h','r','e','a','d','I','n','f','o'] then
            .reply ['m', '0'] s
           else if rest = ['s','T','h','r','e','a','d','I','n','f','o'] then
            .reply ['l'] s
           else if rest = ['S','y','m','b','o','l',':',':'] then .reply ['O', 'K'] s
           else .reply [] s) := rfl
      rw [e] at h
      split_ifs at h <;> (cases h; exact hs)
    by_cases e4 : cmd = 'd'
    · subst e4
      have e : processCommand fault sigval ('d' :: rest) s =
          .reply [] { s with remoteDebug := !s.remoteDebug } := rfl
      rw [e] at h; cases h; exact hs
    by_cases e5 : cmd = 'g'
    · subst e5
      have e : processCommand fault sigval ('g' :: rest) s = cmdG fault s := rfl
      rw [e] at h
      exact cmdG_armed hs h
    by_cases e6 : cmd = 'G'
    · subst e6
      have e : processCommand fault sigval ('G' :: rest) s =
          cmdGSet fault rest s := rfl
      rw [e] at h
      exact cmdGSet_armed hs h
    by_cases e7 : cmd = 'P'
    · subst e7
      have e : processCommand fault sigval ('P' :: rest) s = cmdP fault rest s := rfl
      rw [e] at h
      exact cmdP_armed hs h
    by_cases e8 : cmd = 'm'
    · subst e8
      have e : processCommand fault sigval ('m' :: rest) s = cmdM fault rest s := rfl
      rw [e] at h
      exact cmdM_armed hs h
    by_cases e9 : cmd = 'M'
    · subst e9
      have e : processCommand fault sigval ('M' :: rest) s =
          cmdMSet fault rest s := rfl
      rw [e] at h
      exact cmdMSet_armed hs h
    by_cases e10 : cmd = 's'
    · subst e10
      have e : processCommand fault sigval ('s' :: rest) s =
          .resume { s with regs := csStep true rest s.regs } := rfl
      rw [e] at h
      exact CmdResult.noConfusion h
    by_cases e11 : cmd = 'c'
    · subst e11
      have e : processCommand fault sigval ('c' :: rest) s =
          .resume { s with regs := csStep false rest s.regs } := rfl
      rw [e] at h
      exact CmdResult.noConfusion h
    by_cases e12 : cmd = 'k'
    · subst e12
      have e : processCommand fault sigval ('k' :: rest) s = .reply [] s := rfl
      rw [e] at h; cases h; exact hs
    have e : processCommand fault sigval (cmd :: rest) s = .reply [] s := by
      simp only [processCommand, if_neg e1, if_neg e2, if_neg e3, if_neg e4,
        if_neg e5, if_neg e6, if_neg e7, if_neg e8, if_neg e9, if_neg e10,
        if_neg e11, if_neg e12]
    rw [e] at h; cases h; exact hs

/-- Witness for C5: a faulting one-byte read disarms the window, and a
`g` command preserves the disarmed window. -/
theorem C5_fault_window_closed_witness :
    (mem2hex (fun _ => 0) (fun _ => true) 0 1 true ⟨false, false⟩).2.1.armed
        = false ∧
    ∀ s', processCommand (fun _ => true) 5 ['g']
        ⟨fun _ => 0, fun _ => 0, false, false, false⟩ =
          .reply [] s' → s'.armed = false := by
  constructor
  · exact C5_fault_window_closed.1 (fun _ => 0) (fun _ => true) 0 1
      ⟨false, false⟩ rfl
  · intro s' h
    exact C5_fault_window_closed.2.2 (fun _ => true) 5 ['g']
      ⟨fun _ => 0, fun _ => 0, false, false, false⟩ [] s' rfl h

theorem mem2hexGo_armed_fault (mem : Nat → Nat) (fault : Nat → Bool) :
    ∀ n addr, (∃ i, i < n ∧ fault (addr + i) = true) →
      (mem2hexGo mem fault true addr n ⟨false, true⟩).2 = (⟨true, false⟩, true) := by
  intro n
  induction n with
  | zero => intro addr ⟨i, hi, _⟩; omega
  | succ n ih =>
    intro addr hf
    simp only [mem2hexGo, Bool.true_and]
    by_cases h0 : fault addr = true
    · simp only [h0, if_true]
    · have h0' : fault addr = false := by simpa using h0
      simp only [h0', Bool.false_eq_true, if_false, Bool.and_false]
      have hf' : ∃ i, i < n ∧ fault (addr + 1 + i) = true := by
        obtain ⟨i, hi, hfi⟩ := hf
        match i, hfi with
        | 0, hfi => exact absurd hfi h0
        | j + 1, hfi => exact ⟨j, by omega, by rw [show addr + 1 + j = addr + (j + 1) by omega]; exact hfi⟩
      exact ih (addr + 1) hf'

theorem mem2hexGo_armed_nofault (mem : Nat → Nat) (fault : Nat → Bool) :
    ∀ n addr, (∀ i, i < n → fault (addr + i) = false) →
      mem2hexGo mem fault true addr n ⟨false, true⟩ =
        (hexDump mem addr n, ⟨false, true⟩, false) := by
  intro n
  induction n with
  | zero => intro addr _; rfl
  | succ n ih =>
    intro addr hnf
    have h0 : fault addr = false := by
      have := hnf 0 (by omega)
      simpa using this
    simp only [mem2hexGo, Bool.true_and, h0, Bool.false_eq_true, if_false,
      Bool.and_false, hexDump]
    rw [ih (addr + 1) (fun i hi => by
      rw [show addr + 1 + i = addr + (i + 1) by omega]
      exact hnf (i + 1) (by omega))]

theorem hex2memGo_armed_fault (fault : Nat → Bool) :
    ∀ n buf addr mem, (∃ i, i < n ∧ fault (addr + i) = true) →
      (hex2memGo fault true buf addr n mem ⟨false, true⟩).2 = (⟨true, false⟩, true) := by
  intro n
  induction n with
  | zero => intro buf addr mem ⟨i, hi, _⟩; omega
  | succ n ih =>
    intro buf addr mem hf
    simp only [hex2memGo, Bool.true_and]
    by_cases h0 : fault addr = true
    · simp only [h0, if_true]
    · have h0' : fault addr = false := by simpa using h0
      simp only [h0', Bool.false_eq_true, if_false, Bool.and_false]
      have hf' : ∃ i, i < n ∧ fault (addr + 1 + i) = true := by
        obtain ⟨i, hi, hfi⟩ := hf
        match i, hfi with
        | 0, hfi => exact absurd hfi h0
        | j + 1, hfi => exact ⟨j, by omega, by rw [show addr + 1 + j = addr + (j + 1) by omega]; exact hfi⟩
      exact ih (buf.drop 2) (addr + 1) _ hf'

theorem hex2memGo_armed_nofault (fault : Nat → Bool) :
    ∀ n buf addr mem, (∀ i, i < n → fault (addr + i) = false) →
      (hex2memGo fault true buf addr n mem ⟨false, true⟩).2 =
        (⟨false, true⟩, false) := by
  intro n
  induction n with
  | zero => intro buf addr mem _; rfl
  | succ n ih =>
    intro buf addr mem hnf
    have h0 : fault addr = false := by
      have := hnf 0 (by omega)
      simpa using this
    simp only [hex2memGo, Bool.true_and, h0, Bool.false_eq_true, if_false,
      Bool.and_false]
    exact ih (buf.drop 2) (addr + 1) _ (fun i hi => by
      rw [show addr + 1 + i = addr + (i + 1) by omega]
      exact hnf (i + 1) (by omega))

theorem mem2hex_armed_fault (mem : Nat → Nat) (fault : Nat → Bool)
    (addr count : Nat) (a0 : Bool)
    (hf : ∃ i, i < intIter count ∧ fault (addr + i) = true) :
    (mem2hex mem fault addr count true ⟨false, a0⟩).2 = (⟨true, false⟩, false) := by
  have h0 : mem2hex mem fault addr count true ⟨false, a0⟩ =
      (if (mem2hexGo mem fault true addr (intIter count) ⟨false, true⟩).2.2
        then ((mem2hexGo mem fault true addr (intIter count) ⟨false, true⟩).1,
          (mem2hexGo mem fault true addr (intIter count) ⟨false, true⟩).2.1, false)
        else ((mem2hexGo mem fault true addr (intIter count) ⟨false, true⟩).1,
          ⟨(mem2hexGo mem fault true addr (intIter count) ⟨false, true⟩).2.1.memErr,
            false⟩, true)) := rfl
  have hg := mem2hexGo_armed_fault mem fault (intIter count) addr hf
  have he : (mem2hexGo mem fault true addr (intIter count) ⟨false, true⟩).2.2 = true := by
    rw [hg]
  have hs : (mem2hexGo mem fault true addr (intIter count) ⟨false, true⟩).2.1 =
      ⟨true, false⟩ := by
    rw [hg]
  rw [h0, if_pos he, hs]

theorem mem2hex_armed_nofault (mem : Nat → Nat) (fault : Nat → Bool)
    (addr count : Nat) (a0 : Bool)
    (hnf : ∀ i, i < intIter count → fault (addr + i) = false) :
    mem2hex mem fault addr count true ⟨false, a0⟩ =
      (hexDump mem addr (intIter count), ⟨false, false⟩, true) := by
  have h0 : mem2hex mem fault addr count true ⟨false, a0⟩ =
      (if (mem2hexGo mem fault true addr (intIter count) ⟨false, true⟩).2.2
        then ((mem2hexGo mem fault true addr (intIter count) ⟨false, true⟩).1,
          (mem2hexGo mem fault true addr (intIter count) ⟨false, true⟩).2.1, false)
        else ((mem2hexGo mem fault true addr (intIter count) ⟨false, true⟩).1,
          ⟨(mem2hexGo mem fault true addr (intIter count) ⟨false, true⟩).2.1.memErr,
            false⟩, true)) := rfl
  have hg := mem2hexGo_armed_nofault mem fault (intIter count) addr hnf
  rw [h0, hg]
  rfl

theorem hex2mem_armed_fault (buf : List Char) (fault : Nat → Bool)
    (mem : Nat → Nat) (addr count : Nat) (a0 : Bool)
    (hf : ∃ i, i < intIter count ∧ fault (addr + i) = true) :
    (hex2mem buf fault mem addr count true ⟨false, a0⟩).2 = (⟨true, false⟩, false) := by
  have h0 : hex2mem buf fault mem addr count true ⟨false, a0⟩ =
      (if (hex2memGo fault true buf addr (intIter count) mem ⟨false, true⟩).2.2
        then ((hex2memGo fault true buf addr (intIter count) mem ⟨false, true⟩).1,
          (hex2memGo fault true buf addr (intIter count) mem ⟨false, true⟩).2.1, false)
        else ((hex2memGo fault true buf addr (intIter count) mem ⟨false, true⟩).1,
          ⟨(hex2memGo fault true buf addr (intIter count) mem
              ⟨false, true⟩).2.1.memErr, false⟩, true)) := rfl
  have hg := hex2memGo_armed_fault fault (intIter count) buf addr mem hf
  have he : (hex2memGo fault true buf addr (intIter count) mem ⟨false, true⟩).2.2
      = true := by rw [hg]
  have hs : (hex2memGo fault true buf addr (intIter count) mem ⟨false, true⟩).2.1 =
      ⟨true, false⟩ := by rw [hg]
  rw [h0, if_pos he, hs]

theorem hex2mem_armed_nofault (buf : List Char) (fault : Nat → Bool)
    (mem : Nat → Nat) (addr count : Nat) (a0 : Bool)
    (hnf : ∀ i, i < intIter count → fault (addr + i) = false) :
    (hex2mem buf fault mem addr count true ⟨false, a0⟩).2 = (⟨false, false⟩, true) := by
  have h0 : hex2mem buf fault mem addr count true ⟨false, a0⟩ =
      (if (hex2memGo fault true buf addr (intIter count) mem ⟨false, true⟩).2.2
        then ((hex2memGo fault true buf addr (intIter count) mem ⟨false, true⟩).1,
          (hex2memGo fault true buf addr (intIter count) mem ⟨false, true⟩).2.1, false)
        else ((hex2memGo fault true buf addr (intIter count) mem ⟨false, true⟩).1,
          ⟨(hex2memGo fault true buf addr (intIter count) mem
              ⟨false, true⟩).2.1.memErr, false⟩, true)) := rfl
  have hg := hex2memGo_armed_nofault fault (intIter count) buf addr mem hnf
  have he : (hex2memGo fault true buf addr (intIter count) mem ⟨false, true⟩).2.2
      = false := by rw [hg]
  have hs : (hex2memGo fault true buf addr (intIter count) mem ⟨false, true⟩).2.1 =
      ⟨false, true⟩ := by rw [hg]
  rw [h0, if_neg (by rw [he]; exact Bool.false_ne_true), hs]

/--
C6: replies of the `m` and `M` commands.  When the `addr,length` (and,
for `M`, the `:`) arguments parse, `mem_err` is reset to 0 and the
armed access runs: if it faults the reply is exactly `"E03"`, otherwise
`m` replies the hex bytes read and `M` replies `"OK"`.  When the `m`
arguments fail to parse the reply is `"E01"`; when the `M` arguments
fail to parse the reply is `"E02"`.
-/
theorem C6_m_M_replies (fault : Nat → Bool) (sigval : Nat) (rest : List Char)
    (s : Stub) (n1 addr : Nat) (r1 : List Char) (n2 len : Nat) (r2 : List Char)
    (h1 : hexToInt rest = (n1, addr, r1))
    (h2 : hexToInt (r1.drop 1) = (n2, len, r2)) :
    processCommand fault sigval ('m' :: rest) s = cmdM fault rest s ∧
    processCommand fault sigval ('M' :: rest) s = cmdMSet fault rest s ∧
    (n1 ≠ 0 → r1.headD nul = ',' → n2 ≠ 0 →
      ((∃ i, i < intIter len ∧ fault (addr + i) = true) →
        cmdM fault rest s =
          .reply ['E', '0', '3'] { s with memErr := true, armed := false }) ∧
      ((∀ i, i < intIter len → fault (addr + i) = false) →
        cmdM fault rest s =
          .reply (hexDump s.mem addr (intIter len))
            { s with memErr := false, armed := false })) ∧
    (n1 = 0 ∨ r1.headD nul ≠ ',' ∨ n2 = 0 →
      cmdM fault rest s = .reply ['E', '0', '1'] s) ∧
    (n1 ≠ 0 → r1.headD nul = ',' → n2 ≠ 0 → r2.headD nul = ':' →
      ((∃ i, i < intIter len ∧ fault (addr + i) = true) →
        ∃ s', cmdMSet fault rest s = .reply ['E', '0', '3'] s' ∧
          s'.memErr = true ∧ s'.armed = false) ∧
      ((∀ i, i < intIter len → fault (addr + i) = false) →
        ∃ s', cmdMSet fault rest s = .reply ['O', 'K'] s' ∧
          s'.memErr = false ∧ s'.armed = false)) ∧
    (n1 = 0 ∨ r1.headD nul ≠ ',' ∨ n2 = 0 ∨ r2.headD nul ≠ ':' →
      cmdMSet fault rest s = .reply ['E', '0', '2'] s) := by
  refine ⟨rfl, rfl, ?_, ?_, ?_, ?_⟩
  · intro hp1 hp2 hp3
    constructor
    · intro hf
      simp only [cmdM, h1, h2]
      rw [if_pos hp1, if_pos hp2, if_pos hp3]
      have hw := mem2hex_armed_fault s.mem fault addr len s.armed hf
      have hme : (mem2hex s.mem fault addr len true ⟨false, s.armed⟩).2.1 =
          ⟨true, false⟩ := congrArg Prod.fst hw
      rw [if_pos (by rw [hme])]
      rw [hme]
    · intro hnf
      simp only [cmdM, h1, h2]
      rw [if_pos hp1, if_pos hp2, if_pos hp3]
      have hw := mem2hex_armed_nofault s.mem fault addr len s.armed hnf
      have hme : (mem2hex s.mem fault addr len true ⟨false, s.armed⟩).2.1 =
          ⟨false, false⟩ := by rw [hw]
      have hout : (mem2hex s.mem fault addr len true ⟨false, s.armed⟩).1 =
          hexDump s.mem addr (intIter len) := by rw [hw]
      rw [if_neg (by rw [hme]; exact Bool.false_ne_true)]
      rw [hme, hout]
  · intro hd
    simp only [cmdM, h1, h2]
    rcases hd with h | h | h
    · rw [if_neg (not_not_intro h)]
    · by_cases hn1 : n1 ≠ 0
      · rw [if_pos hn1, if_neg h]
      · rw [if_neg hn1]
    · by_cases hn1 : n1 ≠ 0
      · by_cases hcm : r1.headD nul = ','
        · rw [if_pos hn1, if_pos hcm, if_neg (not_not_intro h)]
        · rw [if_pos hn1, if_neg hcm]
      · rw [if_neg hn1]
  · intro hp1 hp2 hp3 hp4
    constructor
    · intro hf
      refine ⟨{ s with
          mem := (hex2mem (r2.drop 1) fault s.mem addr len true ⟨false, s.armed⟩).1,
          memErr := true, armed := false }, ?_, rfl, rfl⟩
      simp only [cmdMSet, h1, h2]
      rw [if_pos hp1, if_pos hp2, if_pos hp3, if_pos hp4]
      have hw := hex2mem_armed_fault (r2.drop 1) fault s.mem addr len s.armed hf
      have hme : (hex2mem (r2.drop 1) fault s.mem addr len true
          ⟨false, s.armed⟩).2.1 = ⟨true, false⟩ := congrArg Prod.fst hw
      rw [if_pos (by rw [hme])]
      rw [hme]
    · intro hnf
      refine ⟨{ s with
          mem := (hex2mem (r2.drop 1) fault s.mem addr len true ⟨false, s.armed⟩).1,
          memErr := false, armed := false }, ?_, rfl, rfl⟩
      simp only [cmdMSet, h1, h2]
      rw [if_pos hp1, if_pos hp2, if_pos hp3, if_pos hp4]
      have hw := hex2mem_armed_nofault (r2.drop 1) fault s.mem addr len s.armed hnf
      have hme : (hex2mem (r2.drop 1) fault s.mem addr len true
          ⟨false, s.armed⟩).2.1 = ⟨false, false⟩ := congrArg Prod.fst hw
      rw [if_neg (by rw [hme]; exact Bool.false_ne_true)]
      rw [hme]
  · intro hd
    simp only [cmdMSet, h1, h2]
    rcases hd with h | h | h | h
    · rw [if_neg (not_not_intro h)]
    · by_cases hn1 : n1 ≠ 0
      · rw [if_pos hn1, if_neg h]
      · rw [if_neg hn1]
    · by_cases hn1 : n1 ≠ 0
      · by_cases hcm : r1.headD nul = ','
        · rw [if_pos hn1, if_pos hcm, if_neg (not_not_intro h)]
        · rw [if_pos hn1, if_neg hcm]
      · rw [if_neg hn1]
    · by_cases hn1 : n1 ≠ 0
      · by_cases hcm : r1.headD nul = ','
        · by_cases hn2 : n2 ≠ 0
          · rw [if_pos hn1, if_pos hcm, if_pos hn2, if_neg h]
          · rw [if_pos hn1, if_pos hcm, if_neg hn2]
        · rw [if_pos hn1, if_neg hcm]
      · rw [if_neg hn1]

/--
Witness for C6: `m0,1` with an always-faulting target replies `E03`;
with a never-faulting target it replies the one-byte hex dump; `m` with
an empty argument replies `E01`; `M0,1:ff` on a faulting target replies
`E03`; `M` with a missing `:` replies `E02`.
-/
theorem C6_m_M_replies_witness :
    cmdM (fun _ => true) ['0', ',', '1'] ⟨fun _ => 0, fun _ => 0, false, false, false⟩ =
      .reply ['E', '0', '3']
        ⟨fun _ => 0, fun _ => 0, true, false, false⟩ ∧
    cmdM (fun _ => false) ['0', ',', '1'] ⟨fun _ => 0, fun _ => 0, false, false, false⟩ =
      .reply (hexDump (fun _ => 0) 0 (intIter 1))
        ⟨fun _ => 0, fun _ => 0, false, false, false⟩ ∧
    cmdM (fun _ => false) [] ⟨fun _ => 0, fun _ => 0, false, false, false⟩ =
      .reply ['E', '0', '1'] ⟨fun _ => 0, fun _ => 0, false, false, false⟩ ∧
    (∃ s', cmdMSet (fun _ => true) ['0', ',', '1', ':', 'f', 'f']
        ⟨fun _ => 0, fun _ => 0, false, false, false⟩ =
      .reply ['E', '0', '3'] s' ∧ s'.memErr = true ∧ s'.armed = false) ∧
    cmdMSet (fun _ => false) ['0', ',', '1']
        ⟨fun _ => 0, fun _ => 0, false, false, false⟩ =
      .reply ['E', '0', '2'] ⟨fun _ => 0, fun _ => 0, false, false, false⟩ := by
  refine ⟨?_, ?_, ?_, ?_, ?_⟩
  · have h := C6_m_M_replies (fun _ => true) 5 ['0', ',', '1']
      ⟨fun _ => 0, fun _ => 0, false, false, false⟩ 1 0 [',', '1'] 1 1 [] rfl rfl
    exact (h.2.2.1 (by decide) rfl (by decide)).1 ⟨0, by decide, rfl⟩
  · have h := C6_m_M_replies (fun _ => false) 5 ['0', ',', '1']
      ⟨fun _ => 0, fun _ => 0, false, false, false⟩ 1 0 [',', '1'] 1 1 [] rfl rfl
    exact (h.2.2.1 (by decide) rfl (by decide)).2 (fun i _ => rfl)
  · have h := C6_m_M_replies (fun _ => false) 5 []
      ⟨fun _ => 0, fun _ => 0, false, false, false⟩ 0 0 [] 0 0 [] rfl rfl
    exact h.2.2.2.1 (Or.inl rfl)
  · have h := C6_m_M_replies (fun _ => true) 5 ['0', ',', '1', ':', 'f', 'f']
      ⟨fun _ => 0, fun _ => 0, false, false, false⟩ 1 0 [',', '1', ':', 'f', 'f']
      1 1 [':', 'f', 'f'] rfl rfl
    exact (h.2.2.2.2.1 (by decide) rfl (by decide) rfl).1 ⟨0, by decide, rfl⟩
  · have h := C6_m_M_replies (fun _ => false) 5 ['0', ',', '1']
      ⟨fun _ => 0, fun _ => 0, false, false, false⟩ 1 0 [',', '1'] 1 1 [] rfl rfl
    exact h.2.2.2.2.2 (Or.inr (Or.inr (Or.inr (by decide))))

theorem packRegs_regByte (regs : Fin 16 → Nat) (h : ∀ i, regs i < 2 ^ 32)
    (i : Fin 16) : packRegs (regByte regs) i = regs i := by
  have hi := i.isLt
  unfold packRegs regByte
  have f0 : (⟨4 * i.val / 4 % 16, Nat.mod_lt _ (by omega)⟩ : Fin 16) = i :=
    Fin.ext (by simp only []; omega)
  have f1 : (⟨(4 * i.val + 1) / 4 % 16, Nat.mod_lt _ (by omega)⟩ : Fin 16) = i :=
    Fin.ext (by simp only []; omega)
  have f2 : (⟨(4 * i.val + 2) / 4 % 16, Nat.mod_lt _ (by omega)⟩ : Fin 16) = i :=
    Fin.ext (by simp only []; omega)
  have f3 : (⟨(4 * i.val + 3) / 4 % 16, Nat.mod_lt _ (by omega)⟩ : Fin 16) = i :=
    Fin.ext (by simp only []; omega)
  rw [f0, f1, f2, f3]
  have m0 : 4 * i.val % 4 = 0 := by omega
  have m1 : (4 * i.val + 1) % 4 = 1 := by omega
  have m2 : (4 * i.val + 2) % 4 = 2 := by omega
  have m3 : (4 * i.val + 3) % 4 = 3 := by omega
  rw [m0, m1, m2, m3]
  simp only [Nat.shiftRight_eq_div_pow]
  have p0 : (2 : Nat) ^ (8 * 0) = 1 := rfl
  have p1 : (2 : Nat) ^ (8 * 1) = 256 := rfl
  have p2 : (2 : Nat) ^ (8 * 2) = 65536 := rfl
  have p3 : (2 : Nat) ^ (8 * 3) = 16777216 := rfl
  rw [p0, p1, p2, p3, Nat.div_one]
  have q1 : regs i / 256 / 256 = regs i / 65536 := by
    rw [Nat.div_div_eq_div_mul]
  have q2 : regs i / 65536 / 256 = regs i / 16777216 := by
    rw [Nat.div_div_eq_div_mul]
  have q3 : regs i / 16777216 / 256 = 0 := by
    rw [Nat.div_div_eq_div_mul]
    exact Nat.div_eq_of_lt (by have := h i; omega)
  omega

theorem hex2mem_false_out (buf : List Char) (fault : Nat → Bool)
    (mem : Nat → Nat) (addr count : Nat) (s : MState) :
    (hex2mem buf fault mem addr count false s).1 =
      (hex2memGo fault false buf addr (intIter count) mem s).1 := by
  have h0 : hex2mem buf fault mem addr count false s =
      (if (hex2memGo fault false buf addr (intIter count) mem s).2.2
        then ((hex2memGo fault false buf addr (intIter count) mem s).1,
          (hex2memGo fault false buf addr (intIter count) mem s).2.1, false)
        else ((hex2memGo fault false buf addr (intIter count) mem s).1,
          (hex2memGo fault false buf addr (intIter count) mem s).2.1, true)) := rfl
  rw [h0]
  by_cases he : (hex2memGo fault false buf addr (intIter count) mem s).2.2 = true
  · rw [if_pos he]
  · rw [if_neg he]

/--
C7: the `P` command replies `"OK"` exactly when the packet parses as at
least one hex digit giving an index `regno` followed by `'='` with
`regno < 16`; in that case precisely register slot `regno` is
overwritten with the little-endian word formed from the following 8
hex characters, and every other slot keeps its value.  On a parse
failure, or when `regno ≥ 16`, the reply is `"E01"` and the whole
register snapshot is unchanged.
-/
theorem C7_P_register_set (fault : Nat → Bool) (sigval : Nat) (rest : List Char)
    (s : Stub) (n regno : Nat) (r1 : List Char)
    (hp : hexToInt rest = (n, regno, r1))
    (hreg : ∀ i, s.regs i < 2 ^ 32) (harm : s.armed = false) :
    processCommand fault sigval ('P' :: rest) s = cmdP fault rest s ∧
    (∀ hlt : regno < 16, n ≠ 0 → r1.headD nul = '=' →
      cmdP fault rest s = .reply ['O', 'K']
        { s with regs := (Function.update s.regs ⟨regno, hlt⟩
            (hexPairByte (r1.getD 1 nul) (r1.getD 2 nul) +
              256 * hexPairByte (r1.getD 3 nul) (r1.getD 4 nul) +
              65536 * hexPairByte (r1.getD 5 nul) (r1.getD 6 nul) +
              16777216 * hexPairByte (r1.getD 7 nul) (r1.getD 8 nul))) }) ∧
    (n = 0 ∨ r1.headD nul ≠ '=' ∨ 16 ≤ regno →
      cmdP fault rest s = .reply ['E', '0', '1'] s) := by
  refine ⟨rfl, ?_, ?_⟩
  · intro hlt hn he
    simp only [cmdP, hp]
    rw [if_pos ⟨hn, he⟩, if_pos (show regno < NUMREGS from hlt)]
    have hsm : (⟨s.memErr, s.armed⟩ : MState) = ⟨s.memErr, false⟩ := by rw [harm]
    have hst := hex2mem_false_state (r1.drop 1) fault (regByte s.regs)
      (4 * regno) 4 ⟨s.memErr, s.armed⟩ harm
    have hregs : packRegs (hex2mem (r1.drop 1) fault (regByte s.regs)
        (4 * regno) 4 false ⟨s.memErr, s.armed⟩).1 =
        Function.update s.regs ⟨regno, hlt⟩
          (hexPairByte (r1.getD 1 nul) (r1.getD 2 nul) +
            256 * hexPairByte (r1.getD 3 nul) (r1.getD 4 nul) +
            65536 * hexPairByte (r1.getD 5 nul) (r1.getD 6 nul) +
            16777216 * hexPairByte (r1.getD 7 nul) (r1.getD 8 nul)) := by
      funext i
      rw [hex2mem_false_out, hsm]
      rw [show intIter 4 = 4 from rfl]
      by_cases hieq : i = (⟨regno, hlt⟩ : Fin 16)
      · subst hieq
        show packRegs _ _ = _
        unfold packRegs
        rw [hex2memGo_false_mem fault 4 (r1.drop 1) (4 * regno) (regByte s.regs)
          s.memErr (4 * regno),
          hex2memGo_false_mem fault 4 (r1.drop 1) (4 * regno) (regByte s.regs)
          s.memErr (4 * regno + 1),
          hex2memGo_false_mem fault 4 (r1.drop 1) (4 * regno) (regByte s.regs)
          s.memErr (4 * regno + 2),
          hex2memGo_false_mem fault 4 (r1.drop 1) (4 * regno) (regByte s.regs)
          s.memErr (4 * regno + 3)]
        rw [if_pos (by omega), if_pos (by omega), if_pos (by omega),
          if_pos (by omega)]
        have d0 : 2 * (4 * regno - 4 * regno) = 0 := by omega
        have d0' : 2 * (4 * regno - 4 * regno) + 1 = 1 := by omega
        have d1 : 2 * (4 * regno + 1 - 4 * regno) = 2 := by omega
        have d1' : 2 * (4 * regno + 1 - 4 * regno) + 1 = 3 := by omega
        have d2 : 2 * (4 * regno + 2 - 4 * regno) = 4 := by omega
        have d2' : 2 * (4 * regno + 2 - 4 * regno) + 1 = 5 := by omega
        have d3 : 2 * (4 * regno + 3 - 4 * regno) = 6 := by omega
        have d3' : 2 * (4 * regno + 3 - 4 * regno) + 1 = 7 := by omega
        rw [d0', d0, d1', d1, d2', d2, d3', d3]
        rw [getD_drop r1 1 0, getD_drop r1 1 1, getD_drop r1 1 2,
          getD_drop r1 1 3, getD_drop r1 1 4, getD_drop r1 1 5,
          getD_drop r1 1 6, getD_drop r1 1 7]
        rw [Function.update_same]
      · have hv : i.val ≠ regno := fun hv => hieq (Fin.ext hv)
        show packRegs _ _ = _
        unfold packRegs
        rw [hex2memGo_false_mem fault 4 (r1.drop 1) (4 * regno) (regByte s.regs)
          s.memErr (4 * i.val),
          hex2memGo_false_mem fault 4 (r1.drop 1) (4 * regno) (regByte s.regs)
          s.memErr (4 * i.val + 1),
          hex2memGo_false_mem fault 4 (r1.drop 1) (4 * regno) (regByte s.regs)
          s.memErr (4 * i.val + 2),
          hex2memGo_false_mem fault 4 (r1.drop 1) (4 * regno) (regByte s.regs)
          s.memErr (4 * i.val + 3)]
        have hi16 := i.isLt
        rw [if_neg (by omega), if_neg (by omega), if_neg (by omega),
          if_neg (by omega)]
        rw [Function.update_noteq hieq]
        exact packRegs_regByte s.regs hreg i
    rw [hst, hregs]
  · intro hd
    simp only [cmdP, hp]
    rcases hd with h | h | h
    · rw [if_neg (fun hc => hc.1 h)]
    · rw [if_neg (fun hc => h hc.2)]
    · by_cases hc : n ≠ 0 ∧ r1.headD nul = '='
      · rw [if_pos hc, if_neg (by show ¬regno < NUMREGS; unfold NUMREGS; omega)]
      · rw [if_neg hc]

/--
Witness for C7: `P2=01020304` writes register slot 2 little-endian and
replies `OK`; `P=` fails to parse and replies `E01` with registers
unchanged.
-/
theorem C7_P_register_set_witness :
    cmdP (fun _ => false) ['2', '=', '0', '1', '0', '2', '0', '3', '0', '4']
        ⟨fun _ => 0, fun _ => 0, false, false, false⟩ =
      .reply ['O', 'K']
        ⟨Function.update (fun _ => 0) (⟨2, by omega⟩ : Fin 16)
          (hexPairByte '0' '1' + 256 * hexPairByte '0' '2' +
            65536 * hexPairByte '0' '3' + 16777216 * hexPairByte '0' '4'),
          fun _ => 0, false, false, false⟩ ∧
    cmdP (fun _ => false) ['=']
        ⟨fun _ => 0, fun _ => 0, false, false, false⟩ =
      .reply ['E', '0', '1'] ⟨fun _ => 0, fun _ => 0, false, false, false⟩ := by
  constructor
  · have h := C7_P_register_set (fun _ => false) 5
      ['2', '=', '0', '1', '0', '2', '0', '3', '0', '4']
      ⟨fun _ => 0, fun _ => 0, false, false, false⟩ 1 2
      ['=', '0', '1', '0', '2', '0', '3', '0', '4'] rfl
      (fun _ => by norm_num) rfl
    exact h.2.1 (by omega) (by decide) rfl
  · have h := C7_P_register_set (fun _ => false) 5 ['=']
      ⟨fun _ => 0, fun _ => 0, false, false, false⟩ 0 0 ['='] rfl
      (fun _ => by norm_num) rfl
    exact h.2.2 (Or.inl rfl)

theorem writeBuf_getD (old : Nat → Char) (p : List Char) :
    (∀ j, j < p.length → writeBuf old p j = p.getD j nul) ∧
    writeBuf old p p.length = nul := by
  constructor
  · intro j hj
    unfold writeBuf
    rw [if_pos hj]
  · unfold writeBuf
    rw [if_neg (by omega), if_pos rfl]

theorem acceptPacket_spec (old : Nat → Char) (p : List Char)
    (hlen : 2 ≤ p.length) :
    acceptPacket old p =
      (if p.getD 2 nul = ':' then
        (['+', p.getD 0 nul, p.getD 1 nul], 3, writeBuf old p)
       else (['+'], 0, writeBuf old p)) := by
  unfold acceptPacket
  have hb2 : writeBuf old p 2 = p.getD 2 nul := by
    unfold writeBuf
    by_cases h3 : 2 < p.length
    · rw [if_pos h3]
    · have h2 : p.length = 2 := by omega
      rw [if_neg h3, if_pos (by omega), List.getD_eq_default _ _ (by omega)]
  have hb0 : writeBuf old p 0 = p.getD 0 nul := by
    unfold writeBuf
    rw [if_pos (by omega)]
  have hb1 : writeBuf old p 1 = p.getD 1 nul := by
    unfold writeBuf
    rw [if_pos (by omega)]
  show (if writeBuf old p 2 = ':' then
      (['+', writeBuf old p 0, writeBuf old p 1], 3, writeBuf old p)
    else (['+'], 0, writeBuf old p)) = _
  rw [hb2, hb0, hb1]

/--
C8 (amended): for every packet accepted by `getpacket`, the buffer
holds the payload NUL-terminated; when the accepted payload has length
at least 2, the byte at index 2 decides the sequence-prefix handling:
if it is `':'` the two bytes at indices 0 and 1 are echoed right after
the `'+'` ack and the returned cursor is `&buffer[3]`, otherwise
nothing is echoed beyond the `'+'` and the whole payload is returned
(`&buffer[0]`).  (For payloads of length < 2 the `buffer[2]` test can
read a stale byte of an earlier packet, so the claim's unconditional
form fails — see the counterexample.)
-/
theorem C8_sequence_prefix_amended :
    ∀ fuel (old : Nat → Char) (input : List Char) (r : GPResult),
      getpacketF fuel old input = some r →
      (∀ j, j < r.payload.length → r.buf j = r.payload.getD j nul) ∧
      r.buf r.payload.length = nul ∧
      (2 ≤ r.payload.length →
        (r.payload.getD 2 nul = ':' →
          r.offset = 3 ∧
          r.emitted = ['+', r.payload.getD 0 nul, r.payload.getD 1 nul]) ∧
        (r.payload.getD 2 nul ≠ ':' →
          r.offset = 0 ∧ r.emitted = ['+'])) := by
  intro fuel
  induction fuel with
  | zero => intro old input r h; exact Option.noConfusion h
  | succ fuel ih =>
    intro old input r h
    cases hd : input.dropWhile (fun c => c ≠ '$') with
    | nil =>
      simp only [getpacketF, hd] at h
      exact Option.noConfusion h
    | cons x afterD =>
      cases hr : readLoop [] afterD with
      | starve =>
        simp only [getpacketF, hd, hr] at h
        exact Option.noConfusion h
      | dollar part rest =>
        simp only [getpacketF, hd, hr] at h
        exact ih _ _ _ h
      | overflow p rest =>
        simp only [getpacketF, hd, hr] at h
        exact ih _ _ _ h
      | hash p rest =>
        cases rest with
        | nil =>
          simp only [getpacketF, hd, hr] at h
          exact Option.noConfusion h
        | cons c1 rest1 =>
          cases rest1 with
          | nil =>
            simp only [getpacketF, hd, hr] at h
            exact Option.noConfusion h
          | cons c2 rest2 =>
            simp only [getpacketF, hd, hr] at h
            by_cases hcs : checksumOf p = hexPairByte c1 c2
            · rw [if_pos hcs] at h
              cases h
              have hbuf : (acceptPacket old p).2.2 = writeBuf old p := by
                show (if writeBuf old p 2 = ':' then
                    (['+', writeBuf old p 0, writeBuf old p 1], 3, writeBuf old p)
                  else (['+'], 0, writeBuf old p)).2.2 = writeBuf old p
                by_cases hc : writeBuf old p 2 = ':'
                · rw [if_pos hc]
                · rw [if_neg hc]
              refine ⟨?_, ?_, ?_⟩
              · intro j hj
                simp only [hbuf]
                exact (writeBuf_getD old p).1 j hj
              · simp only [hbuf]
                exact (writeBuf_getD old p).2
              · intro hlen
                have ha := acceptPacket_spec old p hlen
                constructor
                · intro hcolon
                  rw [if_pos hcolon] at ha
                  constructor
                  · show (acceptPacket old p).2.1 = 3
                    rw [ha]
                  · show (acceptPacket old p).1 = _
                    rw [ha]
                · intro hcolon
                  rw [if_neg hcolon] at ha
                  constructor
                  · show (acceptPacket old p).2.1 = 0
                    rw [ha]
                  · show (acceptPacket old p).1 = _
                    rw [ha]
            · rw [if_neg hcs] at h
              rcases Option.map_eq_some'.mp h with ⟨r', hr', hmap⟩
              have hres := ih _ _ _ hr'
              cases hmap
              exact hres

/--
C8 counterexample: after accepting the prefixed packet `$ab:cd#c4`,
the stale `':'` left at buffer index 2 makes the next accepted
payload `"g"` (whose own byte at index 2 is not `':'`) be treated as
sequence-prefixed: `getpacket` returns `&buffer[3]` (offset 3, not the
whole payload at offset 0) and echoes the garbage pair `'g'`, NUL.
-/
theorem C8_counterexample_stale_prefix :
    ((getpacketF 2 (fun _ => nul)
        ['$', 'a', 'b', ':', 'c', 'd', '#', 'c', '4']).bind
      (fun r1 => (getpacketF 2 r1.buf ['$', 'g', '#', '6', '7']).map
        (fun r2 => (r2.payload, r2.offset, r2.emitted)))) =
      some (['g'], 3, ['+', 'g', nul]) ∧
    ¬ (['g'] : List Char).getD 2 nul = ':' := by
  constructor
  · rfl
  · decide

/-- Witness for the amended C8 at the accepted packet `$qC#b4`. -/
theorem C8_sequence_prefix_amended_witness :
    getpacketF 2 (fun _ => nul) ['$', 'q', 'C', '#', 'b', '4'] =
      some ⟨0, ['+'], 0, writeBuf (fun _ => nul) ['q', 'C'], ['q', 'C'], []⟩ ∧
    (⟨0, ['+'], 0, writeBuf (fun _ => nul) ['q', 'C'], ['q', 'C'], []⟩
        : GPResult).offset = 0 ∧
    (⟨0, ['+'], 0, writeBuf (fun _ => nul) ['q', 'C'], ['q', 'C'], []⟩
        : GPResult).emitted = ['+'] := by
  have h := C8_sequence_prefix_amended 2 (fun _ => nul)
    ['$', 'q', 'C', '#', 'b', '4']
    ⟨0, ['+'], 0, writeBuf (fun _ => nul) ['q', 'C'], ['q', 'C'], []⟩ rfl
  exact ⟨rfl, (h.2.2 (by decide)).2 (by decide)⟩

end GdbStub
